import Mathlib

/-!
Verification development for the clawty terminal display engine
(`src/cli.ts`): the streaming markdown renderer (`MarkdownRenderer`),
the column-aware line wrapper (`wrapAssistantText`), the erase-and-redraw
display coordinator (`eraseLines` / `redrawPrompt` / `writeStreaming` /
`writePermanent` / spinner), and the raw-keystroke input editor
(`handleChar`).

Text is modelled as `List Char` (the inputs of interest are ASCII, where
JS UTF-16 indexing and `List Char` indexing agree).  The ambient
`process.stdout.columns || 80` terminal width is threaded as an explicit
`cols : Nat` parameter.  Terminal writes are modelled as an event trace.
-/

set_option maxRecDepth 10000

/-- The escape character `\x1b` that introduces ANSI sequences. -/
def ESC : Char := Char.ofNat 27

/-- The backtick character. -/
def btick : Char := Char.ofNat 96

-- ANSI style constants from the top of `cli.ts`, as character lists.
def RESET : List Char := [ESC, '[', '0', 'm']
def BOLD : List Char := [ESC, '[', '1', 'm']
def DIMS : List Char := [ESC, '[', '2', 'm']
def ITALIC : List Char := [ESC, '[', '3', 'm']
def UNDERLINE : List Char := [ESC, '[', '4', 'm']
def NO_UNDERLINE : List Char := [ESC, '[', '2', '4', 'm']
def NO_BOLD : List Char := [ESC, '[', '2', '2', 'm']
def NO_ITALIC : List Char := [ESC, '[', '2', '3', 'm']
def YELLOW : List Char := [ESC, '[', '3', '3', 'm']
def CYAN : List Char := [ESC, '[', '3', '6', 'm']
def BRIGHT_MAGENTA : List Char := [ESC, '[', '9', '5', 'm']

/-- Length of the run of copies of `c` at the head of the list
(`while (input[j] === ch) j++` in the TS source). -/
def runLen (c : Char) : List Char → Nat
  | [] => 0
  | x :: rest => if x = c then runLen c rest + 1 else 0

/-- Split a list at the first occurrence of `c`: returns the part before
and the part after (the occurrence itself is dropped).  `none` when `c`
does not occur.  Models `input.indexOf(c, i)` plus the subsequent
`slice`/skip arithmetic of the TS source. -/
def splitAtChar (c : Char) : List Char → Option (List Char × List Char)
  | [] => none
  | x :: rest =>
    if x = c then some ([], rest)
    else
      match splitAtChar c rest with
      | none => none
      | some (a, b) => some (x :: a, b)

/-- `input.indexOf("\n", i)` as a split. -/
def findNl : List Char → Option (List Char × List Char) := splitAtChar '\n'

/-- The digit test `input[i] >= "0" && input[i] <= "9"` (JS compares code
units; for digits this is the code-point range 48–57). -/
def isDigitCh (c : Char) : Bool := 48 ≤ c.toNat && c.toNat ≤ 57

/-- Length of the run of leading decimal digits
(the `while (input[j] >= "0" && input[j] <= "9") j++` scan). -/
def digitRun : List Char → Nat
  | [] => 0
  | x :: rest => if isDigitCh x then digitRun rest + 1 else 0

/-- State of the streaming markdown renderer (`class MarkdownRenderer`). -/
structure MarkdownRenderer where
  pending : List Char := []
  bold : Bool := false
  italic : Bool := false
  inCode : Bool := false
  inCodeBlock : Bool := false
  codeBlockTicks : Nat := 0
  atLineStart : Bool := true
  lineContent : List Char := []
deriving DecidableEq, Repr

/-- The fresh renderer (`new MarkdownRenderer()`). -/
def MarkdownRenderer.init : MarkdownRenderer := {}

/-- `matchFence(input, i)`: length of a fence run (3+ backticks or tildes)
starting at the head of the list, `0` otherwise. -/
def MarkdownRenderer.matchFence (l : List Char) : Nat :=
  match l with
  | [] => 0
  | c :: _ =>
    if c = btick ∨ c = '~' then
      let n := runLen c l
      if 3 ≤ n then n else 0
    else 0

/-- `if (this.bold) out += BOLD; if (this.italic) out += ITALIC;` —
the style re-assertion emitted after constructs that end in `RESET`. -/
def MarkdownRenderer.styleTail (st : MarkdownRenderer) : List Char :=
  (if st.bold then BOLD else []) ++ (if st.italic then ITALIC else [])

/-- The horizontal-rule scan (`cli.ts` lines 166–173): given the rule
character, returns `(count, isRule, j)` where `count` is the number of
rule characters seen, `isRule` records whether only rule characters and
spaces occurred before the newline/end, and `j` is the offset scanned. -/
def hrScan (rc : Char) : List Char → Nat × Bool × Nat
  | [] => (0, true, 0)
  | c :: rest =>
    if c = '\n' then (0, true, 0)
    else if c = rc then
      let t := hrScan rc rest
      (t.1 + 1, t.2.1, t.2.2 + 1)
    else if c = ' ' then
      let t := hrScan rc rest
      (t.1, t.2.1, t.2.2 + 1)
    else (0, false, 0)

-- State-update helpers naming the assignment groups that occur in the
-- branches of `MarkdownRenderer.push`.

/-- `atLineStart = true; lineContent = ""` (after consuming a newline). -/
def MarkdownRenderer.nlState (st : MarkdownRenderer) : MarkdownRenderer :=
  { st with atLineStart := true, lineContent := [] }

/-- Literal character emission: `atLineStart = false; lineContent += c`. -/
def MarkdownRenderer.litState (st : MarkdownRenderer) (c : Char) : MarkdownRenderer :=
  { st with atLineStart := false, lineContent := st.lineContent ++ [c] }

/-- `atLineStart = false` alone (inline-code pass-through, link emission). -/
def MarkdownRenderer.noLineStart (st : MarkdownRenderer) : MarkdownRenderer :=
  { st with atLineStart := false }

/-- Opening a fenced code block of the given run length. -/
def MarkdownRenderer.openBlock (st : MarkdownRenderer) (fence : Nat) : MarkdownRenderer :=
  { st with inCodeBlock := true, codeBlockTicks := fence,
            atLineStart := true, lineContent := [] }

/-- Closing a fenced code block. -/
def MarkdownRenderer.closeBlock (st : MarkdownRenderer) : MarkdownRenderer :=
  { st with inCodeBlock := false, atLineStart := true, lineContent := [] }

/-- Toggling inline code. -/
def MarkdownRenderer.toggleCode (st : MarkdownRenderer) : MarkdownRenderer :=
  { st with inCode := !st.inCode, atLineStart := false }

/-- Toggling bold. -/
def MarkdownRenderer.toggleBold (st : MarkdownRenderer) : MarkdownRenderer :=
  { st with bold := !st.bold, atLineStart := false }

/-- Toggling italic. -/
def MarkdownRenderer.toggleItalic (st : MarkdownRenderer) : MarkdownRenderer :=
  { st with italic := !st.italic, atLineStart := false }

/-- After a list marker: `atLineStart = false; lineContent = lc`. -/
def MarkdownRenderer.listState (st : MarkdownRenderer) (lc : List Char) : MarkdownRenderer :=
  { st with atLineStart := false, lineContent := lc }

/-- `this.pending = p` just before `break`. -/
def MarkdownRenderer.setPending (st : MarkdownRenderer) (p : List Char) : MarkdownRenderer :=
  { st with pending := p }

/-- Output of the inline-code toggle (`CYAN` on open; `RESET` plus style
re-assertion on close). -/
def MarkdownRenderer.codeToggleOut (st : MarkdownRenderer) : List Char :=
  if st.inCode then RESET ++ st.styleTail else CYAN

/-- Output of the bold toggle. -/
def MarkdownRenderer.boldOut (st : MarkdownRenderer) : List Char :=
  if st.bold then NO_BOLD ++ (if st.italic then ITALIC else []) else BOLD

/-- Output of the italic toggle. -/
def MarkdownRenderer.italicOut (st : MarkdownRenderer) : List Char :=
  if st.italic then NO_ITALIC else ITALIC

/-- Output of a rendered header line. -/
def MarkdownRenderer.headerOut (st : MarkdownRenderer) (txt : List Char) : List Char :=
  BOLD ++ txt ++ RESET ++ st.styleTail ++ ['\n']

/-- Output of a horizontal rule: a dim divider `min(cols - 20, 40)` wide. -/
def MarkdownRenderer.hrOut (cols : Nat) (st : MarkdownRenderer) : List Char :=
  DIMS ++ List.replicate (min (cols - 20) 40) '─' ++ RESET ++ st.styleTail

/-- Output of an unordered list bullet. -/
def MarkdownRenderer.bulletOut (st : MarkdownRenderer) : List Char :=
  DIMS ++ ['•'] ++ RESET ++ [' '] ++ st.styleTail

/-- Output of an ordered list marker `N. `. -/
def MarkdownRenderer.numOut (st : MarkdownRenderer) (num : List Char) : List Char :=
  DIMS ++ num ++ ['.'] ++ RESET ++ [' '] ++ st.styleTail

/-- Output of a rendered link. -/
def MarkdownRenderer.linkOut (st : MarkdownRenderer) (txt url : List Char) : List Char :=
  UNDERLINE ++ txt ++ NO_UNDERLINE ++ DIMS ++ [' ', '(']
    ++ url ++ [')'] ++ RESET ++ st.styleTail

/-- Result of one iteration of the `while (i < input.length)` loop in
`MarkdownRenderer.push`: either the loop stops (`break` or loop-condition
failure), or it continues on a strictly shorter remainder. -/
inductive StepRes where
  | stop (out : List Char) (st : MarkdownRenderer)
  | cont (out : List Char) (st : MarkdownRenderer) (rest : List Char)
deriving DecidableEq, Repr

/-- Fenced-code-block opener branch (`cli.ts` 68–83): the fence run and the
rest of its line (language tag) are consumed; when no newline is available
yet, the whole suffix is buffered. -/
def MarkdownRenderer.openFenceStep (st : MarkdownRenderer) (l : List Char) : StepRes :=
  match findNl (l.drop (MarkdownRenderer.matchFence l)) with
  | none => .stop [] (st.setPending l)
  | some (_, after) =>
      .cont DIMS (st.openBlock (MarkdownRenderer.matchFence l)) after

/-- Inside a fenced code block (`cli.ts` 85–112): a line-start run of at
least `codeBlockTicks` fence characters closes the block (the rest of the
fence line is skipped); otherwise characters pass through. -/
def MarkdownRenderer.inBlockStep (st : MarkdownRenderer) (c : Char)
    (rest : List Char) : StepRes :=
  if st.atLineStart ∧ st.codeBlockTicks ≤ MarkdownRenderer.matchFence (c :: rest) then
    match findNl ((c :: rest).drop (MarkdownRenderer.matchFence (c :: rest))) with
    | none => .stop RESET st.closeBlock
    | some (_, after) => .cont RESET st.closeBlock after
  else if c = '\n' then
    .cont ['\n'] st.nlState rest
  else
    .cont [c] (st.litState c) rest

/-- Header branch (`cli.ts` 143–161).  A `#`-run at the end of input, or a
header line with no newline yet, is buffered; `#` not followed by a space
falls through to the literal branch of the loop. -/
def MarkdownRenderer.headerStep (st : MarkdownRenderer) (c : Char)
    (rest : List Char) : StepRes :=
  if (c :: rest).length ≤ runLen '#' (c :: rest) then
    .stop [] (st.setPending (c :: rest))
  else if (c :: rest).get? (runLen '#' (c :: rest)) = some ' ' then
    match findNl ((c :: rest).drop (runLen '#' (c :: rest) + 1)) with
    | none => .stop [] (st.setPending (c :: rest))
    | some (txt, after) => .cont (st.headerOut txt) st.nlState after
  else
    .cont [c] (st.litState c) rest

/-- The condition under which the horizontal-rule branch (`cli.ts` 164–187)
handles the character instead of falling through: either the scan hit the
end of input with fewer than 3 rule characters (buffer), or the line is a
rule with at least 3 (emit). -/
def hrApplies (c : Char) (l : List Char) : Bool :=
  (decide (l.length ≤ (hrScan c l).2.2) && decide ((hrScan c l).1 < 3)) ||
  ((hrScan c l).2.1 && decide (3 ≤ (hrScan c l).1))

/-- Horizontal-rule branch body. -/
def MarkdownRenderer.hrStep (cols : Nat) (st : MarkdownRenderer) (c : Char)
    (rest : List Char) : StepRes :=
  if (c :: rest).length ≤ (hrScan c (c :: rest)).2.2 ∧ (hrScan c (c :: rest)).1 < 3 then
    .stop [] (st.setPending (c :: rest))
  else if (hrScan c (c :: rest)).2.2 < (c :: rest).length then
    .cont (MarkdownRenderer.hrOut cols st ++ ['\n']) st.nlState
      ((c :: rest).drop ((hrScan c (c :: rest)).2.2 + 1))
  else
    .cont (MarkdownRenderer.hrOut cols st) st.nlState
      ((c :: rest).drop (hrScan c (c :: rest)).2.2)

/-- Ordered-list branch (`cli.ts` 211–224): digits followed by `". "`
render as a dim marker; otherwise the digit falls through to the literal
branch. -/
def MarkdownRenderer.orderedStep (st : MarkdownRenderer) (c : Char)
    (rest : List Char) : StepRes :=
  if (c :: rest).get? (digitRun (c :: rest)) = some '.' ∧
      (c :: rest).get? (digitRun (c :: rest) + 1) = some ' ' then
    .cont (st.numOut ((c :: rest).take (digitRun (c :: rest))))
      (st.listState ((c :: rest).take (digitRun (c :: rest)) ++ ['.', ' ']))
      ((c :: rest).drop (digitRun (c :: rest) + 2))
  else
    .cont [c] (st.litState c) rest

/-- Link branch (`cli.ts` 249–272): `[text](url)` is rendered; an
unterminated construct is buffered when the remaining input is short
(`< 200` before `]`, `< 500` before `)`), else treated as a literal `[`. -/
def MarkdownRenderer.linkStep (st : MarkdownRenderer) (c : Char)
    (rest : List Char) : StepRes :=
  match splitAtChar ']' rest with
  | none =>
      if (c :: rest).length < 200 then .stop [] (st.setPending (c :: rest))
      else .cont [c] (st.litState c) rest
  | some (txt, rest2) =>
    match rest2 with
    | '(' :: rest3 =>
      match splitAtChar ')' rest3 with
      | none =>
          if (c :: rest).length < 500 then .stop [] (st.setPending (c :: rest))
          else .cont [c] (st.litState c) rest
      | some (url, rest4) =>
          .cont (st.linkOut txt url) st.noLineStart rest4
    | _ => .cont [c] (st.litState c) rest

/-- One iteration of the scanning loop of `MarkdownRenderer.push`,
translated branch by branch from `cli.ts` lines 66–288.  The branch order
(and hence precedence) is exactly the source order; branches whose guard
matches but whose body decides to treat the character literally fall
through to the same literal handling the source reaches. -/
def MarkdownRenderer.pushStep (cols : Nat) (st : MarkdownRenderer)
    (l : List Char) : StepRes :=
  match l with
  | [] => .stop [] st
  | c :: rest =>
    if st.atLineStart ∧ st.inCode = false ∧ st.inCodeBlock = false ∧
        0 < MarkdownRenderer.matchFence (c :: rest) then
      st.openFenceStep (c :: rest)
    else if st.inCodeBlock then
      st.inBlockStep c rest
    else if c = btick then
      .cont st.codeToggleOut st.toggleCode rest
    else if st.inCode then
      if c = '\n' then .cont ['\n'] st.nlState rest
      else .cont [c] st.noLineStart rest
    else if st.atLineStart ∧ c = '#' then
      st.headerStep c rest
    else if st.atLineStart ∧ (c = '-' ∨ c = '*' ∨ c = '_') ∧
        hrApplies c (c :: rest) = true then
      st.hrStep cols c rest
    else if st.atLineStart ∧ c = '-' ∧ (c :: rest).get? 1 = some ' ' then
      .cont st.bulletOut (st.listState ['•', ' ']) ((c :: rest).drop 2)
    else if st.atLineStart ∧ c = '*' ∧ (c :: rest).get? 1 = some ' ' then
      .cont st.bulletOut (st.listState ['•', ' ']) ((c :: rest).drop 2)
    else if st.atLineStart ∧ isDigitCh c then
      st.orderedStep c rest
    else if c = '*' ∧ (c :: rest).get? 1 = some '*' then
      .cont st.boldOut st.toggleBold ((c :: rest).drop 2)
    else if c = '*' then
      if rest = [] then .stop [] (st.setPending ['*'])
      else .cont st.italicOut st.toggleItalic rest
    else if c = '[' then
      st.linkStep c rest
    else if c = '\n' then
      .cont ['\n'] st.nlState rest
    else
      .cont [c] (st.litState c) rest

/-- The fueled scanning loop.  `push` always supplies fuel strictly greater
than the input length, and each `cont` step consumes at least one input
character, so the fuel never runs out on the calls `push` makes. -/
def MarkdownRenderer.pushLoop (cols : Nat) :
    Nat → MarkdownRenderer → List Char → List Char × MarkdownRenderer
  | 0, st, l => ([], { st with pending := l })
  | fuel + 1, st, l =>
    match MarkdownRenderer.pushStep cols st l with
    | .stop out st1 => (out, st1)
    | .cont out st1 rest =>
        let p := MarkdownRenderer.pushLoop cols fuel st1 rest
        (out ++ p.1, p.2)

/-- The loop run with adequate fuel. -/
def MarkdownRenderer.pushGo (cols : Nat) (st : MarkdownRenderer)
    (l : List Char) : List Char × MarkdownRenderer :=
  MarkdownRenderer.pushLoop cols (l.length + 1) st l

/-- `MarkdownRenderer.push(chunk)`: prepends the pending buffer, clears it,
and scans.  Returns the emitted ANSI-styled output and the new state. -/
def MarkdownRenderer.push (cols : Nat) (st : MarkdownRenderer)
    (chunk : List Char) : List Char × MarkdownRenderer :=
  MarkdownRenderer.pushGo cols { st with pending := [] } (st.pending ++ chunk)

/-- `MarkdownRenderer.flush()`: emits the pending buffer, appends a full
reset when any style is open, and clears the style state. -/
def MarkdownRenderer.flush (st : MarkdownRenderer) :
    List Char × MarkdownRenderer :=
  (st.pending ++
     (if st.bold || st.italic || st.inCode || st.inCodeBlock then RESET else []),
   { st with pending := [], bold := false, italic := false, inCode := false,
             inCodeBlock := false, atLineStart := true, lineContent := [] })

/-- Pushing a list of chunks in order, concatenating the outputs. -/
def MarkdownRenderer.pushMany (cols : Nat) (st : MarkdownRenderer) :
    List (List Char) → List Char × MarkdownRenderer
  | [] => ([], st)
  | c :: cs =>
    let p := MarkdownRenderer.push cols st c
    let q := MarkdownRenderer.pushMany cols p.2 cs
    (p.1 ++ q.1, q.2)

example :
    (MarkdownRenderer.push 80 .init "**bold**".toList).1 =
      BOLD ++ "bold".toList ++ NO_BOLD := by decide

example :
    (MarkdownRenderer.push 80 .init "*".toList).2.pending = ['*'] := by decide

-- ### Structural lemmas about the scanning step

theorem splitAtChar_length {c : Char} {l a b : List Char}
    (h : splitAtChar c l = some (a, b)) :
    l.length = a.length + 1 + b.length := by
  induction l generalizing a b with
  | nil => simp [splitAtChar] at h
  | cons x rest ih =>
    simp only [splitAtChar] at h
    split at h
    · cases h
      simp
      omega
    · cases hsp : splitAtChar c rest with
      | none => rw [hsp] at h; cases h
      | some p =>
        rw [hsp] at h
        cases h
        have := ih (a := p.1) (b := p.2) (by simpa using hsp)
        simp [this]
        omega

theorem splitAtChar_snd_lt {c : Char} {l a b : List Char}
    (h : splitAtChar c l = some (a, b)) : b.length < l.length := by
  have := splitAtChar_length h
  omega

theorem findNl_drop_lt {n : Nat} {l a b : List Char}
    (h : findNl (List.drop n l) = some (a, b)) : b.length < l.length := by
  have h1 : b.length < (List.drop n l).length := splitAtChar_snd_lt h
  have h2 : (List.drop n l).length ≤ l.length := by
    simp [List.length_drop]
  omega

theorem link_split_lt {rest txt rest3 url rest4 : List Char}
    (h1 : splitAtChar ']' rest = some (txt, '(' :: rest3))
    (h2 : splitAtChar ')' rest3 = some (url, rest4)) :
    rest4.length < rest.length := by
  have a1 := splitAtChar_length h1
  have a2 := splitAtChar_length h2
  simp at a1
  omega

theorem MarkdownRenderer.openFenceStep_cont_length {st : MarkdownRenderer}
    {l o : List Char} {st1 : MarkdownRenderer} {r : List Char}
    (h : st.openFenceStep l = .cont o st1 r) : r.length < l.length := by
  unfold MarkdownRenderer.openFenceStep at h
  split at h
  · exact StepRes.noConfusion h
  · obtain ⟨-, -, rfl⟩ := StepRes.cont.inj h
    exact findNl_drop_lt (by assumption)

theorem MarkdownRenderer.inBlockStep_cont_length {st : MarkdownRenderer}
    {c : Char} {rest o : List Char} {st1 : MarkdownRenderer} {r : List Char}
    (h : st.inBlockStep c rest = .cont o st1 r) : r.length < (c :: rest).length := by
  unfold MarkdownRenderer.inBlockStep at h
  repeat' split at h
  all_goals try (exact StepRes.noConfusion h)
  all_goals obtain ⟨-, -, rfl⟩ := StepRes.cont.inj h
  all_goals simp only [List.length_cons]
  all_goals try omega
  all_goals try (exact findNl_drop_lt (by assumption))

theorem MarkdownRenderer.headerStep_cont_length {st : MarkdownRenderer}
    {c : Char} {rest o : List Char} {st1 : MarkdownRenderer} {r : List Char}
    (h : st.headerStep c rest = .cont o st1 r) : r.length < (c :: rest).length := by
  unfold MarkdownRenderer.headerStep at h
  repeat' split at h
  all_goals try (exact StepRes.noConfusion h)
  all_goals obtain ⟨-, -, rfl⟩ := StepRes.cont.inj h
  all_goals simp only [List.length_cons]
  all_goals try omega
  all_goals try (exact findNl_drop_lt (by assumption))

theorem MarkdownRenderer.hrStep_cont_length {cols : Nat} {st : MarkdownRenderer}
    {c : Char} {rest o : List Char} {st1 : MarkdownRenderer} {r : List Char}
    (h : MarkdownRenderer.hrStep cols st c rest = .cont o st1 r) :
    r.length < (c :: rest).length := by
  unfold MarkdownRenderer.hrStep at h
  repeat' split at h
  all_goals try (exact StepRes.noConfusion h)
  all_goals obtain ⟨-, -, rfl⟩ := StepRes.cont.inj h
  all_goals simp only [List.length_drop, List.length_cons] at *
  all_goals omega

theorem MarkdownRenderer.orderedStep_cont_length {st : MarkdownRenderer}
    {c : Char} {rest o : List Char} {st1 : MarkdownRenderer} {r : List Char}
    (h : st.orderedStep c rest = .cont o st1 r) : r.length < (c :: rest).length := by
  unfold MarkdownRenderer.orderedStep at h
  repeat' split at h
  all_goals obtain ⟨-, -, rfl⟩ := StepRes.cont.inj h
  all_goals simp only [List.length_drop, List.length_cons]
  all_goals omega

theorem MarkdownRenderer.linkStep_cont_length {st : MarkdownRenderer}
    {c : Char} {rest o : List Char} {st1 : MarkdownRenderer} {r : List Char}
    (h : st.linkStep c rest = .cont o st1 r) : r.length < (c :: rest).length := by
  unfold MarkdownRenderer.linkStep at h
  repeat' split at h
  all_goals try (exact StepRes.noConfusion h)
  all_goals obtain ⟨-, -, rfl⟩ := StepRes.cont.inj h
  all_goals simp only [List.length_cons]
  all_goals try omega
  all_goals
    exact Nat.lt_succ_of_lt (link_split_lt (by assumption) (by assumption))

theorem MarkdownRenderer.pushStep_cont_length {cols : Nat}
    {st : MarkdownRenderer} {l o : List Char} {st1 : MarkdownRenderer}
    {r : List Char}
    (h : MarkdownRenderer.pushStep cols st l = .cont o st1 r) :
    r.length < l.length := by
  cases l with
  | nil => simp [MarkdownRenderer.pushStep] at h
  | cons c rest =>
    rw [MarkdownRenderer.pushStep.eq_2] at h
    by_cases h1 : st.atLineStart = true ∧ st.inCode = false ∧
        st.inCodeBlock = false ∧ 0 < MarkdownRenderer.matchFence (c :: rest)
    · rw [if_pos h1] at h
      exact MarkdownRenderer.openFenceStep_cont_length h
    rw [if_neg h1] at h
    by_cases h2 : st.inCodeBlock = true
    · rw [if_pos h2] at h
      exact MarkdownRenderer.inBlockStep_cont_length h
    rw [if_neg h2] at h
    by_cases h3 : c = btick
    · rw [if_pos h3] at h
      obtain ⟨-, -, rfl⟩ := StepRes.cont.inj h
      simp
    rw [if_neg h3] at h
    by_cases h4 : st.inCode = true
    · rw [if_pos h4] at h
      split at h
      all_goals obtain ⟨-, -, rfl⟩ := StepRes.cont.inj h
      all_goals simp
    rw [if_neg h4] at h
    by_cases h5 : st.atLineStart = true ∧ c = '#'
    · rw [if_pos h5] at h
      exact MarkdownRenderer.headerStep_cont_length h
    rw [if_neg h5] at h
    by_cases h6 : st.atLineStart = true ∧ (c = '-' ∨ c = '*' ∨ c = '_') ∧
        hrApplies c (c :: rest) = true
    · rw [if_pos h6] at h
      exact MarkdownRenderer.hrStep_cont_length h
    rw [if_neg h6] at h
    by_cases h7 : st.atLineStart = true ∧ c = '-' ∧ (c :: rest).get? 1 = some ' '
    · rw [if_pos h7] at h
      obtain ⟨-, -, rfl⟩ := StepRes.cont.inj h
      simp only [List.length_drop, List.length_cons]
      omega
    rw [if_neg h7] at h
    by_cases h8 : st.atLineStart = true ∧ c = '*' ∧ (c :: rest).get? 1 = some ' '
    · rw [if_pos h8] at h
      obtain ⟨-, -, rfl⟩ := StepRes.cont.inj h
      simp only [List.length_drop, List.length_cons]
      omega
    rw [if_neg h8] at h
    by_cases h9 : st.atLineStart = true ∧ isDigitCh c = true
    · rw [if_pos h9] at h
      exact MarkdownRenderer.orderedStep_cont_length h
    rw [if_neg h9] at h
    by_cases h10 : c = '*' ∧ (c :: rest).get? 1 = some '*'
    · rw [if_pos h10] at h
      obtain ⟨-, -, rfl⟩ := StepRes.cont.inj h
      simp only [List.length_drop, List.length_cons]
      omega
    rw [if_neg h10] at h
    by_cases h11 : c = '*'
    · rw [if_pos h11] at h
      split at h
      · exact StepRes.noConfusion h
      · obtain ⟨-, -, rfl⟩ := StepRes.cont.inj h
        simp
    rw [if_neg h11] at h
    by_cases h12 : c = '['
    · rw [if_pos h12] at h
      exact MarkdownRenderer.linkStep_cont_length h
    rw [if_neg h12] at h
    by_cases h13 : c = '\n'
    · rw [if_pos h13] at h
      obtain ⟨-, -, rfl⟩ := StepRes.cont.inj h
      simp
    rw [if_neg h13] at h
    obtain ⟨-, -, rfl⟩ := StepRes.cont.inj h
    simp

theorem MarkdownRenderer.pushLoop_congr {cols : Nat} :
    ∀ {f1 f2 : Nat} {st : MarkdownRenderer} {l : List Char},
      l.length < f1 → l.length < f2 →
      MarkdownRenderer.pushLoop cols f1 st l =
        MarkdownRenderer.pushLoop cols f2 st l := by
  intro f1
  induction f1 with
  | zero => intro f2 st l h1 h2; omega
  | succ f1 ih =>
    intro f2 st l h1 h2
    cases f2 with
    | zero => omega
    | succ f2 =>
      simp only [MarkdownRenderer.pushLoop]
      cases hs : MarkdownRenderer.pushStep cols st l with
      | stop o st1 => rfl
      | cont o st1 r =>
        have hr := MarkdownRenderer.pushStep_cont_length hs
        have he : MarkdownRenderer.pushLoop cols f1 st1 r =
            MarkdownRenderer.pushLoop cols f2 st1 r := ih (by omega) (by omega)
        simp [he]

/-- Unfolding equation for `pushGo`: one scanning step, then the loop on
the strictly shorter remainder. -/
theorem MarkdownRenderer.pushGo_eq (cols : Nat) (st : MarkdownRenderer)
    (l : List Char) :
    MarkdownRenderer.pushGo cols st l =
      match MarkdownRenderer.pushStep cols st l with
      | .stop o st1 => (o, st1)
      | .cont o st1 r =>
          let p := MarkdownRenderer.pushGo cols st1 r
          (o ++ p.1, p.2) := by
  unfold MarkdownRenderer.pushGo
  simp only [MarkdownRenderer.pushLoop]
  cases hs : MarkdownRenderer.pushStep cols st l with
  | stop o st1 => rfl
  | cont o st1 r =>
    have hr := MarkdownRenderer.pushStep_cont_length hs
    have he : MarkdownRenderer.pushLoop cols l.length st1 r =
        MarkdownRenderer.pushLoop cols (r.length + 1) st1 r :=
      MarkdownRenderer.pushLoop_congr (by omega) (by omega)
    simp [he, MarkdownRenderer.pushLoop]

-- ### C5 / C9: flush behaviour

/-- C5 (style closure on flush): whenever any of bold, italic, inline code
or a fenced code block is open, `flush()` returns output ending in the full
reset code `ESC[0m`, and afterwards all style flags are cleared and the
renderer is back at line-start state. -/
theorem style_closure (st : MarkdownRenderer)
    (h : (st.bold || st.italic || st.inCode || st.inCodeBlock) = true) :
    RESET <:+ (MarkdownRenderer.flush st).1 ∧
    (MarkdownRenderer.flush st).2.bold = false ∧
    (MarkdownRenderer.flush st).2.italic = false ∧
    (MarkdownRenderer.flush st).2.inCode = false ∧
    (MarkdownRenderer.flush st).2.inCodeBlock = false ∧
    (MarkdownRenderer.flush st).2.atLineStart = true := by
  unfold MarkdownRenderer.flush
  simp [h]

/-- Witness for C5: pushing `"**bo"` leaves bold open, and flushing then
ends with the reset code and clears the flags. -/
theorem style_closure_witness :
    (((MarkdownRenderer.push 80 .init "**bo".toList).2.bold ||
      (MarkdownRenderer.push 80 .init "**bo".toList).2.italic ||
      (MarkdownRenderer.push 80 .init "**bo".toList).2.inCode ||
      (MarkdownRenderer.push 80 .init "**bo".toList).2.inCodeBlock) = true) ∧
    (RESET <:+ (MarkdownRenderer.flush (MarkdownRenderer.push 80 .init "**bo".toList).2).1 ∧
     (MarkdownRenderer.flush (MarkdownRenderer.push 80 .init "**bo".toList).2).2.bold = false ∧
     (MarkdownRenderer.flush (MarkdownRenderer.push 80 .init "**bo".toList).2).2.italic = false ∧
     (MarkdownRenderer.flush (MarkdownRenderer.push 80 .init "**bo".toList).2).2.inCode = false ∧
     (MarkdownRenderer.flush (MarkdownRenderer.push 80 .init "**bo".toList).2).2.inCodeBlock = false ∧
     (MarkdownRenderer.flush (MarkdownRenderer.push 80 .init "**bo".toList).2).2.atLineStart = true) :=
  ⟨by decide, style_closure _ (by decide)⟩

/-- C9 (flush is idempotent): a `flush()` immediately following another
`flush()` returns the empty string — the first flush cleared the pending
buffer and every style flag, so the second has nothing to emit. -/
theorem flush_idempotent (st : MarkdownRenderer) :
    (MarkdownRenderer.flush (MarkdownRenderer.flush st).2).1 = [] := by
  simp [MarkdownRenderer.flush]

-- ### C1: chunk invariance

/-- C1 counterexample: the text `"---x"` rendered in one push comes out as
the four literal characters, but pushed as `"---"` then `"x"` the first
chunk eagerly emits a horizontal rule (the scan hit end-of-input with 3
rule characters), so the concatenated outputs differ. -/
theorem chunk_invariance_counterexample :
    ¬ ((MarkdownRenderer.pushMany 80 .init ["---".toList, "x".toList]).1 ++
        (MarkdownRenderer.flush
          (MarkdownRenderer.pushMany 80 .init ["---".toList, "x".toList]).2).1 =
       (MarkdownRenderer.push 80 .init "---x".toList).1 ++
        (MarkdownRenderer.flush
          (MarkdownRenderer.push 80 .init "---x".toList).2).1) := by decide

/-- A character that can never begin or continue any recognised markdown
construct: not a fence character, header mark, rule/list/emphasis mark,
link bracket, or digit. -/
def safeChar (c : Char) : Prop :=
  c ≠ btick ∧ c ≠ '~' ∧ c ≠ '#' ∧ c ≠ '-' ∧ c ≠ '*' ∧ c ≠ '_' ∧
  c ≠ '[' ∧ isDigitCh c = false

instance (c : Char) : Decidable (safeChar c) := by
  unfold safeChar
  infer_instance

/-- A renderer state with nothing buffered and no style open. -/
def cleanState (st : MarkdownRenderer) : Prop :=
  st.pending = [] ∧ st.bold = false ∧ st.italic = false ∧
  st.inCode = false ∧ st.inCodeBlock = false

instance (st : MarkdownRenderer) : Decidable (cleanState st) := by
  unfold cleanState
  infer_instance

theorem MarkdownRenderer.matchFence_nonfence {c : Char} {rest : List Char}
    (h1 : c ≠ btick) (h2 : c ≠ '~') :
    MarkdownRenderer.matchFence (c :: rest) = 0 := by
  simp [MarkdownRenderer.matchFence, h1, h2]

/-- On a safe character in a clean state, the scanning loop takes exactly
the literal (or newline) branch and emits the character unchanged. -/
theorem MarkdownRenderer.pushStep_safe {cols : Nat} {st : MarkdownRenderer}
    {c : Char} {rest : List Char} (hst : cleanState st) (hc : safeChar c) :
    MarkdownRenderer.pushStep cols st (c :: rest) =
      .cont [c] (if c = '\n' then st.nlState else st.litState c) rest := by
  obtain ⟨hp, hb, hi, hic, hicb⟩ := hst
  obtain ⟨hbt, htl, hsh, hda, hstr, hun, hbr, hdig⟩ := hc
  have hmf : MarkdownRenderer.matchFence (c :: rest) = 0 :=
    MarkdownRenderer.matchFence_nonfence hbt htl
  rw [MarkdownRenderer.pushStep.eq_2]
  rw [if_neg (by simp [hmf])]
  rw [if_neg (by simp [hicb])]
  rw [if_neg hbt]
  rw [if_neg (by simp [hic])]
  rw [if_neg (by simp [hsh])]
  rw [if_neg (by simp [hda, hstr, hun])]
  rw [if_neg (by simp [hda])]
  rw [if_neg (by simp [hstr])]
  rw [if_neg (by simp [hdig])]
  rw [if_neg (by simp [hstr])]
  rw [if_neg hstr]
  rw [if_neg hbr]
  by_cases hn : c = '\n'
  · rw [if_pos hn, if_pos hn]
    subst hn
    rfl
  · rw [if_neg hn, if_neg hn]

theorem MarkdownRenderer.cleanState_after_safe {st : MarkdownRenderer}
    {c : Char} (hst : cleanState st) :
    cleanState (if c = '\n' then st.nlState else st.litState c) := by
  obtain ⟨hp, hb, hi, hic, hicb⟩ := hst
  by_cases hn : c = '\n' <;>
    simp [hn, MarkdownRenderer.nlState, MarkdownRenderer.litState, cleanState,
      hp, hb, hi, hic, hicb]

/-- The scanning loop is the identity on safe text from a clean state. -/
theorem MarkdownRenderer.pushGo_safe {cols : Nat} :
    ∀ {l : List Char} {st : MarkdownRenderer}, cleanState st →
      (∀ c ∈ l, safeChar c) →
      (MarkdownRenderer.pushGo cols st l).1 = l ∧
      cleanState (MarkdownRenderer.pushGo cols st l).2 := by
  intro l
  induction l with
  | nil =>
    intro st hst _
    rw [MarkdownRenderer.pushGo_eq]
    exact ⟨rfl, hst⟩
  | cons c rest ih =>
    intro st hst hsafe
    rw [MarkdownRenderer.pushGo_eq,
        MarkdownRenderer.pushStep_safe hst (hsafe c (by simp))]
    have hclean2 := MarkdownRenderer.cleanState_after_safe (c := c) hst
    have hrec := ih hclean2 (fun d hd => hsafe d (by simp [hd]))
    simpa using hrec

theorem MarkdownRenderer.clearPending_self {st : MarkdownRenderer}
    (h : st.pending = []) : { st with pending := ([] : List Char) } = st := by
  cases st
  simp_all

theorem MarkdownRenderer.push_safe {cols : Nat} {st : MarkdownRenderer}
    {l : List Char} (hst : cleanState st) (hsafe : ∀ c ∈ l, safeChar c) :
    (MarkdownRenderer.push cols st l).1 = l ∧
    cleanState (MarkdownRenderer.push cols st l).2 := by
  unfold MarkdownRenderer.push
  rw [MarkdownRenderer.clearPending_self hst.1, hst.1]
  simpa using MarkdownRenderer.pushGo_safe hst hsafe

theorem MarkdownRenderer.pushMany_safe {cols : Nat} :
    ∀ {chunks : List (List Char)} {st : MarkdownRenderer}, cleanState st →
      (∀ c ∈ chunks.flatten, safeChar c) →
      (MarkdownRenderer.pushMany cols st chunks).1 = chunks.flatten ∧
      cleanState (MarkdownRenderer.pushMany cols st chunks).2 := by
  intro chunks
  induction chunks with
  | nil =>
    intro st hst _
    exact ⟨rfl, hst⟩
  | cons ch rest ih =>
    intro st hst hsafe
    have h1 : (MarkdownRenderer.push cols st ch).1 = ch ∧
        cleanState (MarkdownRenderer.push cols st ch).2 :=
      MarkdownRenderer.push_safe hst (fun c hc => hsafe c (by simp [hc]))
    have h2 := ih h1.2 (fun c hc => hsafe c (by simp [hc]))
    simp only [MarkdownRenderer.pushMany, List.flatten_cons]
    rw [h1.1, h2.1]
    exact ⟨rfl, h2.2⟩

theorem MarkdownRenderer.flush_clean {st : MarkdownRenderer}
    (h : cleanState st) : (MarkdownRenderer.flush st).1 = [] := by
  obtain ⟨hp, hb, hi, hic, hicb⟩ := h
  simp [MarkdownRenderer.flush, hp, hb, hi, hic, hicb]

theorem cleanState_init : cleanState .init := by decide

/-- C1 amended: chunk-invariance does not hold for every partition (see the
counterexample), but it does hold (a) for the spec's own example —
`"**bo"` then `"ld**"` renders exactly like `"**bold**"` — and (b) for any
partition of a text consisting only of markdown-inert characters, on which
`push` acts as the identity. -/
theorem chunk_invariance_amended :
    ((MarkdownRenderer.pushMany 80 .init ["**bo".toList, "ld**".toList]).1 ++
       (MarkdownRenderer.flush
         (MarkdownRenderer.pushMany 80 .init ["**bo".toList, "ld**".toList]).2).1 =
     (MarkdownRenderer.push 80 .init "**bold**".toList).1 ++
       (MarkdownRenderer.flush
         (MarkdownRenderer.push 80 .init "**bold**".toList).2).1) ∧
    (∀ (cols : Nat) (chunks : List (List Char)),
      (∀ c ∈ chunks.flatten, safeChar c) →
      (MarkdownRenderer.pushMany cols .init chunks).1 ++
        (MarkdownRenderer.flush
          (MarkdownRenderer.pushMany cols .init chunks).2).1 =
      (MarkdownRenderer.push cols .init chunks.flatten).1 ++
        (MarkdownRenderer.flush
          (MarkdownRenderer.push cols .init chunks.flatten).2).1) := by
  constructor
  · decide
  · intro cols chunks hsafe
    have hm : (MarkdownRenderer.pushMany cols .init chunks).1 = chunks.flatten ∧
        cleanState (MarkdownRenderer.pushMany cols .init chunks).2 :=
      MarkdownRenderer.pushMany_safe cleanState_init hsafe
    have hw : (MarkdownRenderer.push cols .init chunks.flatten).1 = chunks.flatten ∧
        cleanState (MarkdownRenderer.push cols .init chunks.flatten).2 :=
      MarkdownRenderer.push_safe cleanState_init hsafe
    rw [hm.1, hw.1, MarkdownRenderer.flush_clean hm.2,
        MarkdownRenderer.flush_clean hw.2]

/-- Witness for the amended C1: a concrete safe partition. -/
theorem chunk_invariance_amended_witness :
    (∀ c ∈ (["he".toList, "llo wo".toList, "rld".toList] : List (List Char)).flatten,
        safeChar c) ∧
    ((MarkdownRenderer.pushMany 80 .init
        ["he".toList, "llo wo".toList, "rld".toList]).1 ++
       (MarkdownRenderer.flush
         (MarkdownRenderer.pushMany 80 .init
           ["he".toList, "llo wo".toList, "rld".toList]).2).1 =
     (MarkdownRenderer.push 80 .init
        (["he".toList, "llo wo".toList, "rld".toList] : List (List Char)).flatten).1 ++
       (MarkdownRenderer.flush
         (MarkdownRenderer.push 80 .init
           (["he".toList, "llo wo".toList, "rld".toList] : List (List Char)).flatten).2).1) :=
  ⟨by decide, chunk_invariance_amended.2 80 _ (by decide)⟩

-- ### C3: the pending buffer

theorem MarkdownRenderer.openFenceStep_cont_pending {st : MarkdownRenderer}
    {l o : List Char} {st1 : MarkdownRenderer} {r : List Char}
    (h : st.openFenceStep l = .cont o st1 r) : st1.pending = st.pending := by
  unfold MarkdownRenderer.openFenceStep at h
  repeat' split at h
  all_goals try (exact StepRes.noConfusion h)
  all_goals obtain ⟨-, rfl, -⟩ := StepRes.cont.inj h
  all_goals rfl

theorem MarkdownRenderer.inBlockStep_cont_pending {st : MarkdownRenderer}
    {c : Char} {rest o : List Char} {st1 : MarkdownRenderer} {r : List Char}
    (h : st.inBlockStep c rest = .cont o st1 r) : st1.pending = st.pending := by
  unfold MarkdownRenderer.inBlockStep at h
  repeat' split at h
  all_goals try (exact StepRes.noConfusion h)
  all_goals obtain ⟨-, rfl, -⟩ := StepRes.cont.inj h
  all_goals rfl

theorem MarkdownRenderer.headerStep_cont_pending {st : MarkdownRenderer}
    {c : Char} {rest o : List Char} {st1 : MarkdownRenderer} {r : List Char}
    (h : st.headerStep c rest = .cont o st1 r) : st1.pending = st.pending := by
  unfold MarkdownRenderer.headerStep at h
  repeat' split at h
  all_goals try (exact StepRes.noConfusion h)
  all_goals obtain ⟨-, rfl, -⟩ := StepRes.cont.inj h
  all_goals rfl

theorem MarkdownRenderer.hrStep_cont_pending {cols : Nat} {st : MarkdownRenderer}
    {c : Char} {rest o : List Char} {st1 : MarkdownRenderer} {r : List Char}
    (h : MarkdownRenderer.hrStep cols st c rest = .cont o st1 r) :
    st1.pending = st.pending := by
  unfold MarkdownRenderer.hrStep at h
  repeat' split at h
  all_goals try (exact StepRes.noConfusion h)
  all_goals obtain ⟨-, rfl, -⟩ := StepRes.cont.inj h
  all_goals rfl

theorem MarkdownRenderer.orderedStep_cont_pending {st : MarkdownRenderer}
    {c : Char} {rest o : List Char} {st1 : MarkdownRenderer} {r : List Char}
    (h : st.orderedStep c rest = .cont o st1 r) : st1.pending = st.pending := by
  unfold MarkdownRenderer.orderedStep at h
  repeat' split at h
  all_goals obtain ⟨-, rfl, -⟩ := StepRes.cont.inj h
  all_goals rfl

theorem MarkdownRenderer.linkStep_cont_pending {st : MarkdownRenderer}
    {c : Char} {rest o : List Char} {st1 : MarkdownRenderer} {r : List Char}
    (h : st.linkStep c rest = .cont o st1 r) : st1.pending = st.pending := by
  unfold MarkdownRenderer.linkStep at h
  repeat' split at h
  all_goals try (exact StepRes.noConfusion h)
  all_goals obtain ⟨-, rfl, -⟩ := StepRes.cont.inj h
  all_goals rfl

/-- A `cont` step never modifies the pending buffer (only `stop` sites
assign it). -/
theorem MarkdownRenderer.pushStep_cont_pending {cols : Nat}
    {st : MarkdownRenderer} {l o : List Char} {st1 : MarkdownRenderer}
    {r : List Char}
    (h : MarkdownRenderer.pushStep cols st l = .cont o st1 r) :
    st1.pending = st.pending := by
  cases l with
  | nil => simp [MarkdownRenderer.pushStep] at h
  | cons c rest =>
    rw [MarkdownRenderer.pushStep.eq_2] at h
    by_cases h1 : st.atLineStart = true ∧ st.inCode = false ∧
        st.inCodeBlock = false ∧ 0 < MarkdownRenderer.matchFence (c :: rest)
    · rw [if_pos h1] at h
      exact MarkdownRenderer.openFenceStep_cont_pending h
    rw [if_neg h1] at h
    by_cases h2 : st.inCodeBlock = true
    · rw [if_pos h2] at h
      exact MarkdownRenderer.inBlockStep_cont_pending h
    rw [if_neg h2] at h
    by_cases h3 : c = btick
    · rw [if_pos h3] at h
      obtain ⟨-, rfl, -⟩ := StepRes.cont.inj h
      rfl
    rw [if_neg h3] at h
    by_cases h4 : st.inCode = true
    · rw [if_pos h4] at h
      split at h
      all_goals obtain ⟨-, rfl, -⟩ := StepRes.cont.inj h
      all_goals rfl
    rw [if_neg h4] at h
    by_cases h5 : st.atLineStart = true ∧ c = '#'
    · rw [if_pos h5] at h
      exact MarkdownRenderer.headerStep_cont_pending h
    rw [if_neg h5] at h
    by_cases h6 : st.atLineStart = true ∧ (c = '-' ∨ c = '*' ∨ c = '_') ∧
        hrApplies c (c :: rest) = true
    · rw [if_pos h6] at h
      exact MarkdownRenderer.hrStep_cont_pending h
    rw [if_neg h6] at h
    by_cases h7 : st.atLineStart = true ∧ c = '-' ∧ (c :: rest).get? 1 = some ' '
    · rw [if_pos h7] at h
      obtain ⟨-, rfl, -⟩ := StepRes.cont.inj h
      rfl
    rw [if_neg h7] at h
    by_cases h8 : st.atLineStart = true ∧ c = '*' ∧ (c :: rest).get? 1 = some ' '
    · rw [if_pos h8] at h
      obtain ⟨-, rfl, -⟩ := StepRes.cont.inj h
      rfl
    rw [if_neg h8] at h
    by_cases h9 : st.atLineStart = true ∧ isDigitCh c = true
    · rw [if_pos h9] at h
      exact MarkdownRenderer.orderedStep_cont_pending h
    rw [if_neg h9] at h
    by_cases h10 : c = '*' ∧ (c :: rest).get? 1 = some '*'
    · rw [if_pos h10] at h
      obtain ⟨-, rfl, -⟩ := StepRes.cont.inj h
      rfl
    rw [if_neg h10] at h
    by_cases h11 : c = '*'
    · rw [if_pos h11] at h
      split at h
      · exact StepRes.noConfusion h
      · obtain ⟨-, rfl, -⟩ := StepRes.cont.inj h
        rfl
    rw [if_neg h11] at h
    by_cases h12 : c = '['
    · rw [if_pos h12] at h
      exact MarkdownRenderer.linkStep_cont_pending h
    rw [if_neg h12] at h
    by_cases h13 : c = '\n'
    · rw [if_pos h13] at h
      obtain ⟨-, rfl, -⟩ := StepRes.cont.inj h
      rfl
    rw [if_neg h13] at h
    obtain ⟨-, rfl, -⟩ := StepRes.cont.inj h
    rfl

theorem MarkdownRenderer.matchFence_pos_head {c : Char} {rest : List Char}
    (h : 0 < MarkdownRenderer.matchFence (c :: rest)) : c = btick ∨ c = '~' := by
  by_contra hcon
  push_neg at hcon
  rw [MarkdownRenderer.matchFence_nonfence hcon.1 hcon.2] at h
  omega

/-- Whenever the scanning loop stops with a nonempty pending buffer that
begins with `[`, that buffer came from the link look-ahead and is shorter
than 500 characters.  (Pending buffers from the other constructs begin
with their marker character — a fence char, `#`, `-`, `*` or `_`.) -/
theorem MarkdownRenderer.pushStep_stop_pending {cols : Nat}
    {st : MarkdownRenderer} {l o : List Char} {st1 : MarkdownRenderer}
    (hp : st.pending = [])
    (h : MarkdownRenderer.pushStep cols st l = .stop o st1) :
    st1.pending.head? = some '[' → st1.pending.length < 500 := by
  cases l with
  | nil =>
    rw [MarkdownRenderer.pushStep.eq_1] at h
    obtain ⟨-, rfl⟩ := StepRes.stop.inj h
    simp [hp]
  | cons c rest =>
    rw [MarkdownRenderer.pushStep.eq_2] at h
    by_cases h1 : st.atLineStart = true ∧ st.inCode = false ∧
        st.inCodeBlock = false ∧ 0 < MarkdownRenderer.matchFence (c :: rest)
    · rw [if_pos h1] at h
      unfold MarkdownRenderer.openFenceStep at h
      split at h
      · obtain ⟨-, rfl⟩ := StepRes.stop.inj h
        intro habs
        simp [MarkdownRenderer.setPending] at habs
        rcases MarkdownRenderer.matchFence_pos_head h1.2.2.2 with hc | hc
        · rw [hc] at habs; exact absurd habs (by decide)
        · rw [hc] at habs; exact absurd habs (by decide)
      · exact StepRes.noConfusion h
    rw [if_neg h1] at h
    by_cases h2 : st.inCodeBlock = true
    · rw [if_pos h2] at h
      unfold MarkdownRenderer.inBlockStep at h
      repeat' split at h
      all_goals try (exact StepRes.noConfusion h)
      all_goals obtain ⟨-, rfl⟩ := StepRes.stop.inj h
      all_goals simp [MarkdownRenderer.closeBlock, hp]
    rw [if_neg h2] at h
    by_cases h3 : c = btick
    · rw [if_pos h3] at h
      exact StepRes.noConfusion h
    rw [if_neg h3] at h
    by_cases h4 : st.inCode = true
    · rw [if_pos h4] at h
      split at h
      all_goals exact StepRes.noConfusion h
    rw [if_neg h4] at h
    by_cases h5 : st.atLineStart = true ∧ c = '#'
    · rw [if_pos h5] at h
      unfold MarkdownRenderer.headerStep at h
      repeat' split at h
      all_goals try (exact StepRes.noConfusion h)
      all_goals obtain ⟨-, rfl⟩ := StepRes.stop.inj h
      all_goals intro habs
      all_goals simp [MarkdownRenderer.setPending] at habs
      all_goals rw [h5.2] at habs
      all_goals exact absurd habs (by decide)
    rw [if_neg h5] at h
    by_cases h6 : st.atLineStart = true ∧ (c = '-' ∨ c = '*' ∨ c = '_') ∧
        hrApplies c (c :: rest) = true
    · rw [if_pos h6] at h
      unfold MarkdownRenderer.hrStep at h
      repeat' split at h
      all_goals try (exact StepRes.noConfusion h)
      all_goals obtain ⟨-, rfl⟩ := StepRes.stop.inj h
      all_goals intro habs
      all_goals simp [MarkdownRenderer.setPending] at habs
      all_goals rcases h6.2.1 with hc | hc | hc
      all_goals rw [hc] at habs
      all_goals exact absurd habs (by decide)
    rw [if_neg h6] at h
    by_cases h7 : st.atLineStart = true ∧ c = '-' ∧ (c :: rest).get? 1 = some ' '
    · rw [if_pos h7] at h
      exact StepRes.noConfusion h
    rw [if_neg h7] at h
    by_cases h8 : st.atLineStart = true ∧ c = '*' ∧ (c :: rest).get? 1 = some ' '
    · rw [if_pos h8] at h
      exact StepRes.noConfusion h
    rw [if_neg h8] at h
    by_cases h9 : st.atLineStart = true ∧ isDigitCh c = true
    · rw [if_pos h9] at h
      unfold MarkdownRenderer.orderedStep at h
      repeat' split at h
      all_goals exact StepRes.noConfusion h
    rw [if_neg h9] at h
    by_cases h10 : c = '*' ∧ (c :: rest).get? 1 = some '*'
    · rw [if_pos h10] at h
      exact StepRes.noConfusion h
    rw [if_neg h10] at h
    by_cases h11 : c = '*'
    · rw [if_pos h11] at h
      split at h
      · obtain ⟨-, rfl⟩ := StepRes.stop.inj h
        intro habs
        simp [MarkdownRenderer.setPending] at habs
      · exact StepRes.noConfusion h
    rw [if_neg h11] at h
    by_cases h12 : c = '['
    · rw [if_pos h12] at h
      unfold MarkdownRenderer.linkStep at h
      repeat' split at h
      all_goals try (exact StepRes.noConfusion h)
      all_goals obtain ⟨-, rfl⟩ := StepRes.stop.inj h
      all_goals intro habs
      all_goals simp only [MarkdownRenderer.setPending, List.length_cons]
      all_goals simp only [List.length_cons] at *
      all_goals omega
    rw [if_neg h12] at h
    by_cases h13 : c = '\n'
    · rw [if_pos h13] at h
      exact StepRes.noConfusion h
    rw [if_neg h13] at h
    exact StepRes.noConfusion h

theorem MarkdownRenderer.pushLoop_pending {cols : Nat} :
    ∀ (fuel : Nat) {st : MarkdownRenderer} {l : List Char},
      l.length < fuel → st.pending = [] →
      ((MarkdownRenderer.pushLoop cols fuel st l).2.pending.head? = some '[' →
       (MarkdownRenderer.pushLoop cols fuel st l).2.pending.length < 500) := by
  intro fuel
  induction fuel with
  | zero => intro st l hl; omega
  | succ fuel ih =>
    intro st l hl hp
    simp only [MarkdownRenderer.pushLoop]
    cases hs : MarkdownRenderer.pushStep cols st l with
    | stop o st1 =>
      exact MarkdownRenderer.pushStep_stop_pending hp hs
    | cont o st1 r =>
      have hr := MarkdownRenderer.pushStep_cont_length hs
      have hp1 : st1.pending = [] := by
        rw [MarkdownRenderer.pushStep_cont_pending hs, hp]
      exact ih (by omega) hp1

/-- C3 amended: after any `push`, a pending buffer that begins with `[`
(retained by the link look-ahead) is shorter than 500 characters.  The
pending buffers of the line-oriented constructs (fence opener, header,
horizontal-rule prefix) wait for a newline and are not bounded — see the
counterexample. -/
theorem pending_link_bound (cols : Nat) (st : MarkdownRenderer)
    (chunk : List Char)
    (h : (MarkdownRenderer.push cols st chunk).2.pending.head? = some '[') :
    (MarkdownRenderer.push cols st chunk).2.pending.length < 500 := by
  revert h
  unfold MarkdownRenderer.push MarkdownRenderer.pushGo
  exact MarkdownRenderer.pushLoop_pending _ (by omega) rfl

/-- Witness for the amended C3: pushing `"[ab"` buffers the unterminated
link, which indeed begins with `[` and is under the bound. -/
theorem pending_link_bound_witness :
    (MarkdownRenderer.push 80 .init "[ab".toList).2.pending.head? = some '[' ∧
    (MarkdownRenderer.push 80 .init "[ab".toList).2.pending.length < 500 :=
  ⟨by decide, pending_link_bound 80 .init "[ab".toList (by decide)⟩

/-- C3 counterexample: a single push of `"# "` followed by 600 characters
with no newline leaves 602 characters in the pending buffer — far beyond
the claimed ~500-character bound. -/
theorem pending_bound_counterexample :
    500 < (MarkdownRenderer.push 80 .init
      ("# ".toList ++ List.replicate 600 'a')).2.pending.length ∧
    (MarkdownRenderer.push 80 .init
      ("# ".toList ++ List.replicate 600 'a')).2.pending.length = 602 := by
  constructor <;> decide

-- ### C4: fence matching

theorem runLen_replicate_nl (n : Nat) :
    runLen btick (List.replicate n btick ++ ['\n']) = n := by
  induction n with
  | zero => simp [runLen]; decide
  | succ n ih => simp [List.replicate_succ, runLen, ih]

theorem MarkdownRenderer.matchFence_replicate_nl (n : Nat) :
    MarkdownRenderer.matchFence (List.replicate n btick ++ ['\n']) =
      if 3 ≤ n then n else 0 := by
  cases n with
  | zero => decide
  | succ n =>
    rw [show List.replicate (n + 1) btick ++ ['\n'] =
        btick :: (List.replicate n btick ++ ['\n']) by simp [List.replicate_succ]]
    have hrl : runLen btick (btick :: (List.replicate n btick ++ ['\n'])) = n + 1 := by
      have := runLen_replicate_nl (n + 1)
      simpa [List.replicate_succ] using this
    simp only [MarkdownRenderer.matchFence]
    simp [hrl]

theorem drop_replicate_nl (n : Nat) :
    List.drop n (List.replicate n btick ++ ['\n']) = ['\n'] := by
  have := List.drop_left (List.replicate n btick) ['\n']
  simpa using this

theorem findNl_nl : findNl ['\n'] = some ([], []) := by decide

theorem MarkdownRenderer.pushGo_nil (cols : Nat) (st : MarkdownRenderer) :
    MarkdownRenderer.pushGo cols st [] = ([], st) := by
  rw [MarkdownRenderer.pushGo_eq]
  rfl

theorem MarkdownRenderer.push_eq_go {cols : Nat} {st : MarkdownRenderer}
    {chunk : List Char} (h : st.pending = []) :
    MarkdownRenderer.push cols st chunk = MarkdownRenderer.pushGo cols st chunk := by
  unfold MarkdownRenderer.push
  rw [MarkdownRenderer.clearPending_self h, h]
  simp

/-- Pushing an opening fence line `` ```…`\n `` (run length `m ≥ 3`) from
the fresh state opens a code block with `codeBlockTicks = m`. -/
theorem MarkdownRenderer.push_open_fence (cols m : Nat) (hm : 3 ≤ m) :
    MarkdownRenderer.push cols .init (List.replicate m btick ++ ['\n']) =
      (DIMS, MarkdownRenderer.openBlock .init m) := by
  obtain ⟨m', rfl⟩ : ∃ m', m = m' + 1 := ⟨m - 1, by omega⟩
  rw [MarkdownRenderer.push_eq_go rfl]
  have hcons : List.replicate (m' + 1) btick ++ ['\n'] =
      btick :: (List.replicate m' btick ++ ['\n']) := by simp [List.replicate_succ]
  have hmf : MarkdownRenderer.matchFence
      (List.replicate (m' + 1) btick ++ ['\n']) = m' + 1 := by
    rw [MarkdownRenderer.matchFence_replicate_nl, if_pos hm]
  have hstep : MarkdownRenderer.pushStep cols .init
      (List.replicate (m' + 1) btick ++ ['\n']) =
      .cont DIMS (MarkdownRenderer.openBlock .init (m' + 1)) [] := by
    rw [hcons, MarkdownRenderer.pushStep.eq_2]
    rw [if_pos ⟨rfl, rfl, rfl, by rw [← hcons, hmf]; omega⟩]
    unfold MarkdownRenderer.openFenceStep
    rw [← hcons, hmf, drop_replicate_nl, findNl_nl]
  rw [MarkdownRenderer.pushGo_eq, hstep]
  simp [MarkdownRenderer.pushGo_nil]

/-- Inside a code block and not at line start, a run of backticks followed
by a newline passes through without closing the block. -/
theorem MarkdownRenderer.pushGo_inblock_lit (cols : Nat) :
    ∀ (j : Nat) (st : MarkdownRenderer), st.inCodeBlock = true →
      st.atLineStart = false →
      (MarkdownRenderer.pushGo cols st
        (List.replicate j btick ++ ['\n'])).2.inCodeBlock = true := by
  intro j
  induction j with
  | zero =>
    intro st hicb hals
    have hstep : MarkdownRenderer.pushStep cols st ['\n'] =
        .cont ['\n'] st.nlState [] := by
      rw [MarkdownRenderer.pushStep.eq_2]
      rw [if_neg (by simp [hals])]
      rw [if_pos hicb]
      unfold MarkdownRenderer.inBlockStep
      rw [if_neg (by simp [hals])]
      rw [if_pos rfl]
    rw [show List.replicate 0 btick ++ ['\n'] = ['\n'] by simp]
    rw [MarkdownRenderer.pushGo_eq, hstep]
    simp [MarkdownRenderer.pushGo_nil, MarkdownRenderer.nlState, hicb]
  | succ j ih =>
    intro st hicb hals
    have hcons : List.replicate (j + 1) btick ++ ['\n'] =
        btick :: (List.replicate j btick ++ ['\n']) := by simp [List.replicate_succ]
    have hstep : MarkdownRenderer.pushStep cols st
        (btick :: (List.replicate j btick ++ ['\n'])) =
        .cont [btick] (st.litState btick) (List.replicate j btick ++ ['\n']) := by
      rw [MarkdownRenderer.pushStep.eq_2]
      rw [if_neg (by simp [hals])]
      rw [if_pos hicb]
      unfold MarkdownRenderer.inBlockStep
      rw [if_neg (by simp [hals])]
      rw [if_neg (by decide)]
    rw [hcons, MarkdownRenderer.pushGo_eq, hstep]
    have := ih (st.litState btick) (by simp [MarkdownRenderer.litState, hicb])
      (by simp [MarkdownRenderer.litState])
    simpa using this

/-- C4 (fence matching): open a fenced code block with a run of `m ≥ 3`
backticks; a subsequent line-start run of `k` backticks closes it exactly
when `k ≥ m`.  In particular a block opened by 4 backticks is not closed
by 3 but is closed by 4 or more. -/
theorem fence_matching (cols m k : Nat) (hm : 3 ≤ m) :
    (((MarkdownRenderer.push cols
        (MarkdownRenderer.push cols .init (List.replicate m btick ++ ['\n'])).2
        (List.replicate k btick ++ ['\n'])).2.inCodeBlock = true) ↔ k < m) := by
  rw [MarkdownRenderer.push_open_fence cols m hm]
  rw [MarkdownRenderer.push_eq_go rfl]
  by_cases hk : m ≤ k
  · obtain ⟨k', rfl⟩ : ∃ k', k = k' + 1 := ⟨k - 1, by omega⟩
    have hcons : List.replicate (k' + 1) btick ++ ['\n'] =
        btick :: (List.replicate k' btick ++ ['\n']) := by simp [List.replicate_succ]
    have hmf : MarkdownRenderer.matchFence
        (List.replicate (k' + 1) btick ++ ['\n']) = k' + 1 := by
      rw [MarkdownRenderer.matchFence_replicate_nl, if_pos (by omega)]
    have hstep : MarkdownRenderer.pushStep cols
        (MarkdownRenderer.openBlock .init m)
        (btick :: (List.replicate k' btick ++ ['\n'])) =
        .cont RESET (MarkdownRenderer.openBlock .init m).closeBlock [] := by
      rw [MarkdownRenderer.pushStep.eq_2]
      rw [if_neg (by simp [MarkdownRenderer.openBlock])]
      rw [if_pos (show (MarkdownRenderer.openBlock .init m).inCodeBlock = true
        from rfl)]
      unfold MarkdownRenderer.inBlockStep
      rw [← hcons, hmf, drop_replicate_nl, findNl_nl]
      rw [if_pos (show (MarkdownRenderer.openBlock .init m).atLineStart = true ∧
            (MarkdownRenderer.openBlock .init m).codeBlockTicks ≤ k' + 1
          from ⟨rfl, by simp [MarkdownRenderer.openBlock]; omega⟩)]
    rw [hcons, MarkdownRenderer.pushGo_eq, hstep]
    simp [MarkdownRenderer.pushGo_nil, MarkdownRenderer.closeBlock]
    omega
  · push_neg at hk
    cases k with
    | zero =>
      have hstep : MarkdownRenderer.pushStep cols
          (MarkdownRenderer.openBlock .init m) ['\n'] =
          .cont ['\n'] (MarkdownRenderer.openBlock .init m).nlState [] := by
        rw [MarkdownRenderer.pushStep.eq_2]
        rw [if_neg (by simp [MarkdownRenderer.openBlock])]
        rw [if_pos (show (MarkdownRenderer.openBlock .init m).inCodeBlock = true
          from rfl)]
        unfold MarkdownRenderer.inBlockStep
        rw [if_neg (by
          rintro ⟨-, habs⟩
          have : MarkdownRenderer.matchFence ['\n'] = 0 := by decide
          rw [this] at habs
          simp [MarkdownRenderer.openBlock] at habs
          omega)]
        rw [if_pos rfl]
      rw [show List.replicate 0 btick ++ ['\n'] = ['\n'] by simp]
      rw [MarkdownRenderer.pushGo_eq, hstep]
      simp [MarkdownRenderer.pushGo_nil, MarkdownRenderer.nlState,
        MarkdownRenderer.openBlock]
      omega
    | succ k' =>
      have hcons : List.replicate (k' + 1) btick ++ ['\n'] =
          btick :: (List.replicate k' btick ++ ['\n']) := by
        simp [List.replicate_succ]
      have hmf := MarkdownRenderer.matchFence_replicate_nl (k' + 1)
      have hstep : MarkdownRenderer.pushStep cols
          (MarkdownRenderer.openBlock .init m)
          (btick :: (List.replicate k' btick ++ ['\n'])) =
          .cont [btick] ((MarkdownRenderer.openBlock .init m).litState btick)
            (List.replicate k' btick ++ ['\n']) := by
        rw [MarkdownRenderer.pushStep.eq_2]
        rw [if_neg (by simp [MarkdownRenderer.openBlock])]
        rw [if_pos (show (MarkdownRenderer.openBlock .init m).inCodeBlock = true
          from rfl)]
        unfold MarkdownRenderer.inBlockStep
        rw [if_neg (by
          rintro ⟨-, habs⟩
          rw [← hcons, hmf] at habs
          simp only [MarkdownRenderer.openBlock] at habs
          rcases le_or_lt 3 (k' + 1) with h3 | h3
          · rw [if_pos h3] at habs; omega
          · rw [if_neg (by omega)] at habs; omega)]
        rw [if_neg (by decide)]
      rw [hcons, MarkdownRenderer.pushGo_eq, hstep]
      have hlit := MarkdownRenderer.pushGo_inblock_lit cols k'
        ((MarkdownRenderer.openBlock .init m).litState btick)
        (by simp [MarkdownRenderer.litState, MarkdownRenderer.openBlock])
        (by simp [MarkdownRenderer.litState])
      simp only at hlit ⊢
      simp [hlit]
      omega

/-- Witness for C4 at the claim's concrete numbers: a fence opened by 4
backticks is not closed by a 3-backtick run, and is closed by a 4-run. -/
theorem fence_matching_witness :
    (3 ≤ 4) ∧
    (((MarkdownRenderer.push 80
        (MarkdownRenderer.push 80 .init (List.replicate 4 btick ++ ['\n'])).2
        (List.replicate 3 btick ++ ['\n'])).2.inCodeBlock = true) ↔ 3 < 4) ∧
    (((MarkdownRenderer.push 80
        (MarkdownRenderer.push 80 .init (List.replicate 4 btick ++ ['\n'])).2
        (List.replicate 4 btick ++ ['\n'])).2.inCodeBlock = true) ↔ 4 < 4) :=
  ⟨by decide, fence_matching 80 4 3 (by decide), fence_matching 80 4 4 (by decide)⟩

-- ### C6: the column-aware line wrapper `wrapAssistantText`

/-- 16 spaces: aligns continuation lines with the text after the
`  ◀ [assistant] ` prefix. -/
def ASSISTANT_INDENT : List Char := List.replicate 16 ' '

/-- A parameter/intermediate byte of an ANSI escape sequence:
`0x20 ≤ code ≤ 0x3f`, as scanned by `wrapAssistantText`. -/
def isParamByte (c : Char) : Bool := 32 ≤ c.toNat && c.toNat ≤ 63

/-- Consume the run of parameter bytes after `ESC [`. -/
def takeParams : List Char → List Char × List Char
  | [] => ([], [])
  | c :: rest =>
    if isParamByte c then
      let p := takeParams rest
      (c :: p.1, p.2)
    else ([], c :: rest)

theorem takeParams_snd_le : ∀ (l : List Char), (takeParams l).2.length ≤ l.length := by
  intro l
  induction l with
  | nil => simp [takeParams]
  | cons c rest ih =>
    simp only [takeParams]
    split
    · simpa using Nat.le_succ_of_le ih
    · simp

/-- Drop the final byte of an escape sequence when one is present
(`if (i < text.length) i++`). -/
def dropFinal : List Char → List Char
  | [] => []
  | _ :: r => r

/-- The final byte of an escape sequence, when present, as output. -/
def finalOut : List Char → List Char
  | [] => []
  | f :: _ => [f]

theorem dropFinal_le (l : List Char) : (dropFinal l).length ≤ l.length := by
  cases l <;> simp [dropFinal]

/-- The character walk of `wrapAssistantText` (`cli.ts` 745–775): escape
sequences are copied without advancing the column; a newline resets the
column to the indent width; any other character wraps first if the column
has reached the terminal width, then advances the column by one. -/
def wrapLoop (cols : Nat) (l : List Char) (col : Nat) : List Char × Nat :=
  match l with
  | [] => ([], col)
  | c :: rest =>
    if c = ESC then
      match rest with
      | '[' :: rest2 =>
          let w := wrapLoop cols (dropFinal (takeParams rest2).2) col
          (ESC :: '[' :: ((takeParams rest2).1 ++ finalOut (takeParams rest2).2 ++ w.1),
           w.2)
      | [] => ([ESC], col)
      | _ :: rest2 =>
          -- the `for`-loop increments `i` once in the ESC branch and once at
          -- the loop head, so a character following ESC that is not `[` is
          -- consumed without being copied or counted
          let w := wrapLoop cols rest2 col
          (ESC :: w.1, w.2)
    else if c = '\n' then
      let w := wrapLoop cols rest ASSISTANT_INDENT.length
      ('\n' :: (ASSISTANT_INDENT ++ w.1), w.2)
    else if cols ≤ col then
      let w := wrapLoop cols rest (ASSISTANT_INDENT.length + 1)
      ('\n' :: (ASSISTANT_INDENT ++ c :: w.1), w.2)
    else
      let w := wrapLoop cols rest (col + 1)
      (c :: w.1, w.2)
termination_by l.length
decreasing_by
  · have h1 := takeParams_snd_le rest2
    have h2 := dropFinal_le (takeParams rest2).2
    simp
    omega
  · simp
    omega
  · simp
  · simp
  · simp

/-- `wrapAssistantText(text, startCol)` with the terminal width made an
explicit parameter (`process.stdout.columns || 80` in the source). -/
def wrapAssistantText (cols : Nat) (text : List Char) (startCol : Nat) :
    List Char × Nat :=
  wrapLoop cols text startCol

theorem wrapLoop_plain {cols col : Nat} {c : Char} {rest : List Char}
    (hesc : c ≠ ESC) (hnl : c ≠ '\n') (hcol : col < cols) :
    wrapLoop cols (c :: rest) col =
      (c :: (wrapLoop cols rest (col + 1)).1, (wrapLoop cols rest (col + 1)).2) := by
  conv_lhs => unfold wrapLoop
  rw [if_neg hesc, if_neg hnl, if_neg (by omega)]


theorem wrapLoop_wrapbreak {cols col : Nat} {c : Char} {rest : List Char}
    (hesc : c ≠ ESC) (hnl : c ≠ '\n') (hcol : cols ≤ col) :
    wrapLoop cols (c :: rest) col =
      ('\n' :: (ASSISTANT_INDENT ++
          c :: (wrapLoop cols rest (ASSISTANT_INDENT.length + 1)).1),
       (wrapLoop cols rest (ASSISTANT_INDENT.length + 1)).2) := by
  conv_lhs => unfold wrapLoop
  rw [if_neg hesc, if_neg hnl, if_pos hcol]


theorem wrapLoop_esc {cols col : Nat} {rest2 ps : List Char} {f : Char}
    {rest4 : List Char} (hp : takeParams rest2 = (ps, f :: rest4)) :
    wrapLoop cols (ESC :: '[' :: rest2) col =
      (ESC :: '[' :: (ps ++ f :: (wrapLoop cols rest4 col).1),
       (wrapLoop cols rest4 col).2) := by
  conv_lhs => unfold wrapLoop
  simp [hp, dropFinal, finalOut]

theorem wrapLoop_nil (cols col : Nat) : wrapLoop cols [] col = ([], col) := by
  conv_lhs => unfold wrapLoop

/-- C6 (column tracking): wrapping `"hello\x1b[1mworld\x1b[0m!"` starting
at column `width - 3` (for any width ≥ 24): the two escape sequences are
copied through without advancing the column, exactly one wrap break
(newline plus 16-space indent) is inserted — at the point the visible
column reaches the width, after `"hel"` — and the final column is 24
(16 indent + 8 visible characters), counting only `hello`, `world`, `!`. -/
theorem column_tracking (w : Nat) (hw : 24 ≤ w) :
    (wrapAssistantText w
        ('h' :: 'e' :: 'l' :: 'l' :: 'o' :: ESC :: '[' :: '1' :: 'm' ::
         'w' :: 'o' :: 'r' :: 'l' :: 'd' :: ESC :: '[' :: '0' :: 'm' :: '!' :: [])
        (w - 3)).1 =
      'h' :: 'e' :: 'l' :: '\n' ::
        (ASSISTANT_INDENT ++
          ('l' :: 'o' :: ESC :: '[' :: '1' :: 'm' :: 'w' :: 'o' :: 'r' :: 'l' ::
           'd' :: ESC :: '[' :: '0' :: 'm' :: '!' :: [])) ∧
    (wrapAssistantText w
        ('h' :: 'e' :: 'l' :: 'l' :: 'o' :: ESC :: '[' :: '1' :: 'm' ::
         'w' :: 'o' :: 'r' :: 'l' :: 'd' :: ESC :: '[' :: '0' :: 'm' :: '!' :: [])
        (w - 3)).2 = 24 ∧
    (wrapAssistantText w
        ('h' :: 'e' :: 'l' :: 'l' :: 'o' :: ESC :: '[' :: '1' :: 'm' ::
         'w' :: 'o' :: 'r' :: 'l' :: 'd' :: ESC :: '[' :: '0' :: 'm' :: '!' :: [])
        (w - 3)).1.count '\n' = 1 := by
  have h_excl : wrapLoop w ('!' :: []) 23 = (['!'], 24) := by
    rw [wrapLoop_plain (show ('!' : Char) ≠ ESC from by decide)
      (show ('!' : Char) ≠ '\n' from by decide) (show 23 < w from by omega),
      wrapLoop_nil]
  have h_esc2 : wrapLoop w (ESC :: '[' :: '0' :: 'm' :: '!' :: []) 23 =
      (ESC :: '[' :: '0' :: 'm' :: '!' :: [], 24) := by
    rw [wrapLoop_esc (show takeParams ('0' :: 'm' :: '!' :: []) =
      (['0'], 'm' :: '!' :: []) from by decide), h_excl]
    rfl
  have h_world : wrapLoop w
      ('w' :: 'o' :: 'r' :: 'l' :: 'd' :: ESC :: '[' :: '0' :: 'm' :: '!' :: []) 18 =
      ('w' :: 'o' :: 'r' :: 'l' :: 'd' :: ESC :: '[' :: '0' :: 'm' :: '!' :: [], 24) := by
    rw [wrapLoop_plain (show ('w' : Char) ≠ ESC from by decide)
      (show ('w' : Char) ≠ '\n' from by decide) (show 18 < w from by omega)]
    rw [wrapLoop_plain (show ('o' : Char) ≠ ESC from by decide)
      (show ('o' : Char) ≠ '\n' from by decide) (show 18 + 1 < w from by omega)]
    rw [wrapLoop_plain (show ('r' : Char) ≠ ESC from by decide)
      (show ('r' : Char) ≠ '\n' from by decide) (show 18 + 1 + 1 < w from by omega)]
    rw [wrapLoop_plain (show ('l' : Char) ≠ ESC from by decide)
      (show ('l' : Char) ≠ '\n' from by decide) (show 18 + 1 + 1 + 1 < w from by omega)]
    rw [wrapLoop_plain (show ('d' : Char) ≠ ESC from by decide)
      (show ('d' : Char) ≠ '\n' from by decide)
      (show 18 + 1 + 1 + 1 + 1 < w from by omega)]
    rw [show 18 + 1 + 1 + 1 + 1 + 1 = 23 from by omega, h_esc2]
  have h_esc1 : wrapLoop w
      (ESC :: '[' :: '1' :: 'm' :: 'w' :: 'o' :: 'r' :: 'l' :: 'd' ::
       ESC :: '[' :: '0' :: 'm' :: '!' :: []) 18 =
      (ESC :: '[' :: '1' :: 'm' :: 'w' :: 'o' :: 'r' :: 'l' :: 'd' ::
       ESC :: '[' :: '0' :: 'm' :: '!' :: [], 24) := by
    rw [wrapLoop_esc (show takeParams
      ('1' :: 'm' :: 'w' :: 'o' :: 'r' :: 'l' :: 'd' ::
       ESC :: '[' :: '0' :: 'm' :: '!' :: []) =
      (['1'], 'm' :: 'w' :: 'o' :: 'r' :: 'l' :: 'd' ::
       ESC :: '[' :: '0' :: 'm' :: '!' :: []) from by decide), h_world]
    rfl
  have h_o : wrapLoop w
      ('o' :: ESC :: '[' :: '1' :: 'm' :: 'w' :: 'o' :: 'r' :: 'l' :: 'd' ::
       ESC :: '[' :: '0' :: 'm' :: '!' :: []) 17 =
      ('o' :: ESC :: '[' :: '1' :: 'm' :: 'w' :: 'o' :: 'r' :: 'l' :: 'd' ::
       ESC :: '[' :: '0' :: 'm' :: '!' :: [], 24) := by
    rw [wrapLoop_plain (show ('o' : Char) ≠ ESC from by decide)
      (show ('o' : Char) ≠ '\n' from by decide) (show 17 < w from by omega)]
    rw [show (17 : Nat) + 1 = 18 from rfl, h_esc1]
  have h_l2 : wrapLoop w
      ('l' :: 'o' :: ESC :: '[' :: '1' :: 'm' :: 'w' :: 'o' :: 'r' :: 'l' :: 'd' ::
       ESC :: '[' :: '0' :: 'm' :: '!' :: []) (w - 3 + 1 + 1 + 1) =
      ('\n' :: (ASSISTANT_INDENT ++
        ('l' :: 'o' :: ESC :: '[' :: '1' :: 'm' :: 'w' :: 'o' :: 'r' :: 'l' :: 'd' ::
         ESC :: '[' :: '0' :: 'm' :: '!' :: [])), 24) := by
    rw [wrapLoop_wrapbreak (show ('l' : Char) ≠ ESC from by decide)
      (show ('l' : Char) ≠ '\n' from by decide)
      (show w ≤ w - 3 + 1 + 1 + 1 from by omega)]
    rw [show ASSISTANT_INDENT.length + 1 = 17 from by decide, h_o]
  have h_all : wrapLoop w
      ('h' :: 'e' :: 'l' :: 'l' :: 'o' :: ESC :: '[' :: '1' :: 'm' ::
       'w' :: 'o' :: 'r' :: 'l' :: 'd' :: ESC :: '[' :: '0' :: 'm' :: '!' :: [])
      (w - 3) =
      ('h' :: 'e' :: 'l' :: '\n' ::
        (ASSISTANT_INDENT ++
          ('l' :: 'o' :: ESC :: '[' :: '1' :: 'm' :: 'w' :: 'o' :: 'r' :: 'l' ::
           'd' :: ESC :: '[' :: '0' :: 'm' :: '!' :: [])), 24) := by
    rw [wrapLoop_plain (show ('h' : Char) ≠ ESC from by decide)
      (show ('h' : Char) ≠ '\n' from by decide) (show w - 3 < w from by omega)]
    rw [wrapLoop_plain (show ('e' : Char) ≠ ESC from by decide)
      (show ('e' : Char) ≠ '\n' from by decide) (show w - 3 + 1 < w from by omega)]
    rw [wrapLoop_plain (show ('l' : Char) ≠ ESC from by decide)
      (show ('l' : Char) ≠ '\n' from by decide) (show w - 3 + 1 + 1 < w from by omega)]
    rw [h_l2]
  refine ⟨?_, ?_, ?_⟩
  · unfold wrapAssistantText
    rw [h_all]
  · unfold wrapAssistantText
    rw [h_all]
  · unfold wrapAssistantText
    rw [h_all]
    decide

/-- Witness for C6 at width 80. -/
theorem column_tracking_witness :
    24 ≤ 80 ∧
    ((wrapAssistantText 80
        ('h' :: 'e' :: 'l' :: 'l' :: 'o' :: ESC :: '[' :: '1' :: 'm' ::
         'w' :: 'o' :: 'r' :: 'l' :: 'd' :: ESC :: '[' :: '0' :: 'm' :: '!' :: [])
        (80 - 3)).1 =
      'h' :: 'e' :: 'l' :: '\n' ::
        (ASSISTANT_INDENT ++
          ('l' :: 'o' :: ESC :: '[' :: '1' :: 'm' :: 'w' :: 'o' :: 'r' :: 'l' ::
           'd' :: ESC :: '[' :: '0' :: 'm' :: '!' :: [])) ∧
    (wrapAssistantText 80
        ('h' :: 'e' :: 'l' :: 'l' :: 'o' :: ESC :: '[' :: '1' :: 'm' ::
         'w' :: 'o' :: 'r' :: 'l' :: 'd' :: ESC :: '[' :: '0' :: 'm' :: '!' :: [])
        (80 - 3)).2 = 24 ∧
    (wrapAssistantText 80
        ('h' :: 'e' :: 'l' :: 'l' :: 'o' :: ESC :: '[' :: '1' :: 'm' ::
         'w' :: 'o' :: 'r' :: 'l' :: 'd' :: ESC :: '[' :: '0' :: 'm' :: '!' :: [])
        (80 - 3)).1.count '\n' = 1) :=
  ⟨by decide, column_tracking 80 (by decide)⟩

-- ### The display coordinator (erase-and-redraw UI, `cli.ts` 1395–1620)

/-- `updateStreamingCol` scan with fuel (each step consumes at least one
character, and callers pass fuel greater than the text length). -/
def updColLoop (cols : Nat) : Nat → Nat → List Char → Nat
  | 0, col, _ => col
  | _ + 1, col, [] => col
  | fuel + 1, col, c :: rest =>
    if c = ESC then
      match rest with
      | '[' :: rest2 => updColLoop cols fuel col (dropFinal (takeParams rest2).2)
      | other => updColLoop cols fuel col other
    else if c = '\n' then updColLoop cols fuel 0 rest
    else if c = '\r' then updColLoop cols fuel 0 rest
    else updColLoop cols fuel (if cols ≤ col + 1 then 0 else col + 1) rest

/-- `updateStreamingCol(text)` (`cli.ts` 1510–1539): advances the persisted
streaming column for each visible character, skipping ANSI escape
sequences, resetting to 0 on `\n`/`\r`, and wrapping to 0 at `cols`. -/
def updateStreamingCol (cols col : Nat) (text : List Char) : Nat :=
  updColLoop cols (text.length + 1) col text

/-- One terminal side effect of the coordinator.  `erase n` stands for the
`eraseLines(n)` primitive (n clear-line writes walking upward, then a
carriage return); `drawPrompt`/`drawSpinner` stand for the redraw bodies,
writing 1 and 2 dynamic lines respectively. -/
inductive Ev where
  | erase (n : Nat)
  | write (s : List Char)
  | cursorUp
  | cursorRight (n : Nat)
  | drawPrompt (pfx vis : List Char)
  | drawSpinner (frame : Nat) (pfx vis : List Char)
deriving DecidableEq, Repr

/-- The shared mutable state of the raw-mode UI: the coordinator's
dynamic-region bookkeeping plus the input editor's buffer and queue. -/
structure CoSt where
  dynamicLineCount : Nat
  spinnerOn : Bool
  spinnerFrame : Nat
  streamingActive : Bool
  streamingCol : Nat
  promptVisible : Bool
  inputBuffer : List Char
  escapeSeq : Nat
  messageQueue : List (List Char)
  processing : Bool
  running : Bool
deriving DecidableEq, Repr

/-- The state at module initialisation (before the initial `redrawPrompt()`
call at `cli.ts` 1730). -/
def coInit : CoSt :=
  { dynamicLineCount := 0, spinnerOn := false, spinnerFrame := 0,
    streamingActive := false, streamingCol := 0, promptVisible := false,
    inputBuffer := [], escapeSeq := 0, messageQueue := [], processing := false,
    running := true }

/-- The sub-line after the last embedded newline (`lastIndexOf("\n")`). -/
def lastLine (buf : List Char) : List Char :=
  (buf.reverse.takeWhile (fun c => decide (c ≠ '\n'))).reverse

/-- `getVisibleInput()`: the tail of the current sub-line truncated to
`cols - 5`. -/
def getVisibleInput (cols : Nat) (buf : List Char) : List Char :=
  let cur := lastLine buf
  if cols - 5 < cur.length then cur.drop (cur.length - (cols - 5)) else cur

/-- The `  .. ` continuation prompt prefix. -/
def contPfx : List Char := [' ', ' '] ++ DIMS ++ ['.', '.'] ++ RESET ++ [' ']

/-- The `  > ` normal prompt prefix. -/
def normalPfx : List Char := [' ', ' '] ++ BRIGHT_MAGENTA ++ ['>'] ++ RESET ++ [' ']

/-- The prompt prefix: `..` during backslash continuation, `>` otherwise. -/
def promptPfx (buf : List Char) : List Char :=
  if buf.contains '\n' then contPfx else normalPfx

/-- `drawSpinnerAndPrompt()`: writes the spinner line and the prompt line
(2 dynamic lines) and records `dynamicLineCount = 2`. -/
def drawSpinnerAndPrompt (cols : Nat) (st : CoSt) : CoSt × List Ev :=
  ({ st with dynamicLineCount := 2 },
   [Ev.drawSpinner st.spinnerFrame (promptPfx st.inputBuffer)
      (getVisibleInput cols st.inputBuffer)])

/-- `redrawPrompt()` (`cli.ts` 1438–1463). -/
def redrawPrompt (cols : Nat) (st : CoSt) : CoSt × List Ev :=
  let hadDynamic := 0 < st.dynamicLineCount
  let e1 : List Ev :=
    if 0 < st.dynamicLineCount then [Ev.erase st.dynamicLineCount] else []
  let st1 := { st with dynamicLineCount := 0 }
  if st1.spinnerOn then
    let p := drawSpinnerAndPrompt cols st1
    (p.1, e1 ++ p.2)
  else
    let e2 : List Ev :=
      if st1.streamingActive ∧ ¬hadDynamic then [Ev.write ['\n']] else []
    ({ st1 with dynamicLineCount := 1, promptVisible := true },
     e1 ++ e2 ++ [Ev.drawPrompt (promptPfx st1.inputBuffer)
        (getVisibleInput cols st1.inputBuffer)])

/-- `writeStreaming(text)` (`cli.ts` 1545–1568). -/
def writeStreaming (cols : Nat) (st : CoSt) (text : List Char) : CoSt × List Ev :=
  let e1 : List Ev :=
    if 0 < st.dynamicLineCount then
      [Ev.erase st.dynamicLineCount] ++
        (if st.streamingActive then
          [Ev.cursorUp] ++
            (if 0 < st.streamingCol then [Ev.cursorRight st.streamingCol] else [])
        else [])
    else []
  let st1 := { st with dynamicLineCount := 0, streamingActive := true,
                       streamingCol := updateStreamingCol cols st.streamingCol text }
  let p := redrawPrompt cols st1
  (p.1, e1 ++ [Ev.write text] ++ p.2)

/-- `writePermanent(text)` (`cli.ts` 1467–1495). -/
def writePermanent (cols : Nat) (st : CoSt) (text : List Char) : CoSt × List Ev :=
  let hadDynamic := 0 < st.dynamicLineCount
  let e1 : List Ev :=
    if 0 < st.dynamicLineCount then [Ev.erase st.dynamicLineCount] else []
  let st1 := { st with dynamicLineCount := 0 }
  let e2 : List Ev :=
    if st1.streamingActive ∧ ¬hadDynamic then [Ev.write ['\n']] else []
  let st2 := if st1.streamingActive then
      { st1 with streamingActive := false, streamingCol := 0 }
    else st1
  let e3 : List Ev := [Ev.write (text ++ ['\n'])]
  if st2.spinnerOn then
    let p := drawSpinnerAndPrompt cols st2
    (p.1, e1 ++ e2 ++ e3 ++ p.2)
  else if st2.promptVisible then
    let p := redrawPrompt cols st2
    (p.1, e1 ++ e2 ++ e3 ++ p.2)
  else
    (st2, e1 ++ e2 ++ e3)

/-- `startSpinner()` (`cli.ts` 1595–1612): resets the frame and streaming
column, erases the dynamic section, draws spinner + prompt and starts the
tick timer. -/
def startSpinner (cols : Nat) (st : CoSt) : CoSt × List Ev :=
  let st0 := { st with spinnerFrame := 0, streamingCol := 0 }
  let e1 : List Ev :=
    if 0 < st0.dynamicLineCount then [Ev.erase st0.dynamicLineCount] else []
  let st1 := { st0 with dynamicLineCount := 0 }
  let p := drawSpinnerAndPrompt cols st1
  ({ p.1 with spinnerOn := true }, e1 ++ p.2)

/-- `clearSpinner()` (`cli.ts` 1585–1593): stops the tick timer, erases the
dynamic section and redraws the prompt alone. -/
def clearSpinner (cols : Nat) (st : CoSt) : CoSt × List Ev :=
  let st0 := { st with spinnerOn := false }
  let e1 : List Ev :=
    if 0 < st0.dynamicLineCount then [Ev.erase st0.dynamicLineCount] else []
  let st1 := { st0 with dynamicLineCount := 0 }
  let p := redrawPrompt cols st1
  (p.1, e1 ++ p.2)

/-- The four coordinator operations of claim C2. -/
inductive CoOp where
  | startSpin
  | clearSpin
  | stream (text : List Char)
  | perm (text : List Char)
deriving DecidableEq, Repr

def runOp (cols : Nat) (st : CoSt) : CoOp → CoSt × List Ev
  | .startSpin => startSpinner cols st
  | .clearSpin => clearSpinner cols st
  | .stream t => writeStreaming cols st t
  | .perm t => writePermanent cols st t

def runOps (cols : Nat) (st : CoSt) : List CoOp → CoSt × List Ev
  | [] => (st, [])
  | op :: rest =>
    let p := runOp cols st op
    let q := runOps cols p.1 rest
    (q.1, p.2 ++ q.2)

/-- The dynamic line count a trace-reader believes in after a prefix of
events: an erase zeroes it, each redraw records the lines it wrote. -/
def lastD : Nat → List Ev → Nat
  | d, [] => d
  | _, Ev.erase _ :: rest => lastD 0 rest
  | _, Ev.drawPrompt _ _ :: rest => lastD 1 rest
  | _, Ev.drawSpinner _ _ _ :: rest => lastD 2 rest
  | d, _ :: rest => lastD d rest

/-- Erase symmetry of a trace: starting from a recorded count `d`, every
`erase n` event erases exactly the `n = d` lines recorded by the most
recent preceding redraw (or carried in from before the trace). -/
def traceOk : Nat → List Ev → Bool
  | _, [] => true
  | d, Ev.erase n :: rest => (n == d) && traceOk 0 rest
  | _, Ev.drawPrompt _ _ :: rest => traceOk 1 rest
  | _, Ev.drawSpinner _ _ _ :: rest => traceOk 2 rest
  | d, _ :: rest => traceOk d rest

theorem traceOk_append (d : Nat) (a b : List Ev) :
    traceOk d (a ++ b) = (traceOk d a && traceOk (lastD d a) b) := by
  induction a generalizing d with
  | nil => simp [traceOk, lastD]
  | cons e rest ih =>
    cases e <;> simp [traceOk, lastD, ih, Bool.and_assoc]

theorem drawSpinnerAndPrompt_trace (cols : Nat) (st : CoSt) :
    traceOk st.dynamicLineCount (drawSpinnerAndPrompt cols st).2 = true ∧
    lastD st.dynamicLineCount (drawSpinnerAndPrompt cols st).2 =
      (drawSpinnerAndPrompt cols st).1.dynamicLineCount := by
  simp [drawSpinnerAndPrompt, traceOk, lastD]

theorem redrawPrompt_trace (cols : Nat) (st : CoSt) :
    traceOk st.dynamicLineCount (redrawPrompt cols st).2 = true ∧
    lastD st.dynamicLineCount (redrawPrompt cols st).2 =
      (redrawPrompt cols st).1.dynamicLineCount := by
  unfold redrawPrompt
  by_cases h1 : 0 < st.dynamicLineCount <;>
    by_cases h2 : st.spinnerOn = true <;>
      by_cases h3 : st.streamingActive = true <;>
        simp [h1, h2, h3, drawSpinnerAndPrompt, traceOk, lastD, traceOk_append]

theorem writeStreaming_trace (cols : Nat) (st : CoSt) (text : List Char) :
    traceOk st.dynamicLineCount (writeStreaming cols st text).2 = true ∧
    lastD st.dynamicLineCount (writeStreaming cols st text).2 =
      (writeStreaming cols st text).1.dynamicLineCount := by
  unfold writeStreaming
  have hr := redrawPrompt_trace cols
    { st with dynamicLineCount := 0, streamingActive := true,
              streamingCol := updateStreamingCol cols st.streamingCol text }
  by_cases h1 : 0 < st.dynamicLineCount <;>
    by_cases h2 : st.streamingActive = true <;>
      by_cases h3 : 0 < st.streamingCol <;>
        simp_all [traceOk_append, traceOk, lastD]

theorem writePermanent_trace (cols : Nat) (st : CoSt) (text : List Char) :
    traceOk st.dynamicLineCount (writePermanent cols st text).2 = true ∧
    lastD st.dynamicLineCount (writePermanent cols st text).2 =
      (writePermanent cols st text).1.dynamicLineCount := by
  unfold writePermanent
  have hr1 := redrawPrompt_trace cols
    { st with dynamicLineCount := 0, streamingActive := false, streamingCol := 0 }
  have hr2 := redrawPrompt_trace cols { st with dynamicLineCount := 0 }
  by_cases h1 : 0 < st.dynamicLineCount <;>
    by_cases h2 : st.streamingActive = true <;>
      by_cases h3 : st.spinnerOn = true <;>
        by_cases h4 : st.promptVisible = true <;>
          simp_all [traceOk_append, traceOk, lastD, drawSpinnerAndPrompt]

theorem startSpinner_trace (cols : Nat) (st : CoSt) :
    traceOk st.dynamicLineCount (startSpinner cols st).2 = true ∧
    lastD st.dynamicLineCount (startSpinner cols st).2 =
      (startSpinner cols st).1.dynamicLineCount := by
  unfold startSpinner
  by_cases h1 : 0 < st.dynamicLineCount <;>
    simp [h1, drawSpinnerAndPrompt, traceOk, lastD, traceOk_append]

theorem clearSpinner_trace (cols : Nat) (st : CoSt) :
    traceOk st.dynamicLineCount (clearSpinner cols st).2 = true ∧
    lastD st.dynamicLineCount (clearSpinner cols st).2 =
      (clearSpinner cols st).1.dynamicLineCount := by
  unfold clearSpinner
  have hr := redrawPrompt_trace cols
    { st with spinnerOn := false, dynamicLineCount := 0 }
  by_cases h1 : 0 < st.dynamicLineCount <;>
    simp_all [traceOk_append, traceOk, lastD]

/-- C2 (erase symmetry): over any sequence of `startSpinner`,
`clearSpinner`, `writeStreaming`, `writePermanent` calls, every
`eraseLines(n)` the coordinator issues erases exactly the number of lines
recorded by the immediately preceding redraw (1 for a prompt-only redraw,
2 for spinner plus prompt), as checked by `traceOk` over the whole event
trace. -/
theorem erase_symmetry (cols : Nat) (st : CoSt) (ops : List CoOp) :
    traceOk st.dynamicLineCount (runOps cols st ops).2 = true := by
  induction ops generalizing st with
  | nil => simp [runOps, traceOk]
  | cons op rest ih =>
    simp only [runOps]
    rw [traceOk_append]
    have h1 : traceOk st.dynamicLineCount (runOp cols st op).2 = true ∧
        lastD st.dynamicLineCount (runOp cols st op).2 =
          (runOp cols st op).1.dynamicLineCount := by
      cases op with
      | startSpin => exact startSpinner_trace cols st
      | clearSpin => exact clearSpinner_trace cols st
      | stream t => exact writeStreaming_trace cols st t
      | perm t => exact writePermanent_trace cols st t
    rw [h1.1, h1.2, ih]
    rfl

-- ### C10: the streaming column stays in range

theorem updColLoop_lt {cols : Nat} (hc : 0 < cols) :
    ∀ (fuel col : Nat) (l : List Char), col < cols →
      updColLoop cols fuel col l < cols := by
  intro fuel
  induction fuel with
  | zero => intro col l h; simpa [updColLoop] using h
  | succ fuel ih =>
    intro col l h
    cases l with
    | nil => simpa [updColLoop] using h
    | cons c rest =>
      simp only [updColLoop]
      by_cases hesc : c = ESC
      · rw [if_pos hesc]
        cases rest with
        | nil => exact ih _ _ h
        | cons c2 rest2 =>
          by_cases hbr : c2 = '['
          · subst hbr
            exact ih _ _ h
          · split
            · exact ih _ _ h
            · exact ih _ _ h
      · rw [if_neg hesc]
        by_cases hnl : c = '\n'
        · rw [if_pos hnl]; exact ih _ _ hc
        rw [if_neg hnl]
        by_cases hcr : c = '\r'
        · rw [if_pos hcr]; exact ih _ _ hc
        rw [if_neg hcr]
        by_cases hw : cols ≤ col + 1
        · rw [if_pos hw]; exact ih _ _ hc
        · rw [if_neg hw]; exact ih _ _ (by omega)

theorem updateStreamingCol_lt {cols col : Nat} (hc : 0 < cols)
    (h : col < cols) (text : List Char) :
    updateStreamingCol cols col text < cols :=
  updColLoop_lt hc _ col text h

theorem redrawPrompt_no_cursorRight (cols : Nat) (st : CoSt) (n : Nat) :
    Ev.cursorRight n ∉ (redrawPrompt cols st).2 := by
  unfold redrawPrompt
  by_cases h1 : 0 < st.dynamicLineCount <;>
    by_cases h2 : st.spinnerOn = true <;>
      by_cases h3 : st.streamingActive = true <;>
        simp_all [drawSpinnerAndPrompt]

theorem redrawPrompt_streamingCol (cols : Nat) (st : CoSt) :
    (redrawPrompt cols st).1.streamingCol = st.streamingCol := by
  unfold redrawPrompt
  by_cases h1 : st.spinnerOn = true <;> simp [h1, drawSpinnerAndPrompt]

/-- C10 (streaming column in range): starting from any state whose
persisted streaming column is below the terminal width, after any sequence
of coordinator calls the column is still in `[0, cols)`, and every
cursor-right restore emitted by `writeStreaming` moves the cursor by at
most `cols - 1` columns. -/
theorem streaming_col_in_range (cols : Nat) (st : CoSt) (ops : List CoOp)
    (hc : 0 < cols) (hcol : st.streamingCol < cols) :
    (runOps cols st ops).1.streamingCol < cols ∧
    (∀ n, Ev.cursorRight n ∈ (runOps cols st ops).2 → n < cols) := by
  induction ops generalizing st with
  | nil => simpa [runOps] using hcol
  | cons op rest ih =>
    simp only [runOps]
    have hop : (runOp cols st op).1.streamingCol < cols ∧
        (∀ n, Ev.cursorRight n ∈ (runOp cols st op).2 → n < cols) := by
      cases op with
      | startSpin =>
        unfold runOp startSpinner
        constructor
        · by_cases h1 : 0 < st.dynamicLineCount <;>
            simp [h1, drawSpinnerAndPrompt, hc]
        · intro n hn
          by_cases h1 : 0 < st.dynamicLineCount <;>
            simp_all [drawSpinnerAndPrompt]
      | clearSpin =>
        unfold runOp clearSpinner
        constructor
        · rw [redrawPrompt_streamingCol]
          exact hcol
        · intro n hn
          simp only [List.mem_append] at hn
          rcases hn with hn | hn
          · by_cases h1 : 0 < st.dynamicLineCount <;> simp_all
          · exact absurd hn (redrawPrompt_no_cursorRight cols _ n)
      | stream t =>
        unfold runOp writeStreaming
        constructor
        · rw [redrawPrompt_streamingCol]
          exact updateStreamingCol_lt hc hcol t
        · intro n hn
          simp only [List.mem_append] at hn
          rcases hn with (hn | hn) | hn
          · by_cases h1 : 0 < st.dynamicLineCount <;>
              by_cases h2 : st.streamingActive = true <;>
                by_cases h3 : 0 < st.streamingCol <;>
                  simp_all
          · simp_all
          · exact absurd hn (redrawPrompt_no_cursorRight cols _ n)
      | perm t =>
        unfold runOp writePermanent
        constructor
        · by_cases h2 : st.streamingActive = true <;>
            by_cases h3 : st.spinnerOn = true <;>
              by_cases h4 : st.promptVisible = true <;>
                simp_all [drawSpinnerAndPrompt, redrawPrompt_streamingCol, hc]
        · intro n hn
          by_cases h1 : 0 < st.dynamicLineCount <;>
            by_cases h2 : st.streamingActive = true <;>
              by_cases h3 : st.spinnerOn = true <;>
                by_cases h4 : st.promptVisible = true <;>
                  simp_all [drawSpinnerAndPrompt, redrawPrompt_no_cursorRight]
    have hrest := ih ((runOp cols st op).1) hop.1
    refine ⟨hrest.1, ?_⟩
    intro n hn
    simp only [List.mem_append] at hn
    rcases hn with hn | hn
    · exact hop.2 n hn
    · exact hrest.2 n hn

/-- Witness for C10: a concrete run at width 80. -/
theorem streaming_col_in_range_witness :
    (0 < 80 ∧ coInit.streamingCol < 80) ∧
    ((runOps 80 coInit [CoOp.stream ['h', 'i']]).1.streamingCol < 80 ∧
     (∀ n, Ev.cursorRight n ∈ (runOps 80 coInit [CoOp.stream ['h', 'i']]).2 →
        n < 80)) :=
  ⟨⟨by decide, by decide⟩,
   streaming_col_in_range 80 coInit [CoOp.stream ['h', 'i']]
     (by decide) (by decide)⟩

-- ### C7: writePermanent while streaming

/-- The event trace of `writePermanent` as the amended claim describes it:
erase the dynamic region when it is nonempty; emit a separating newline
only when streaming with NO dynamic region on screen (when a prompt line
was erased, the cursor already sits on its own line below the streamed
text); write the text plus a newline; finally redraw spinner + prompt if
the spinner is active, else the prompt alone if it was visible. -/
def writePermanentSpec (cols : Nat) (st : CoSt) (text : List Char) : List Ev :=
  (if 0 < st.dynamicLineCount then [Ev.erase st.dynamicLineCount] else []) ++
  (if st.streamingActive = true ∧ st.dynamicLineCount = 0 then
     [Ev.write ['\n']] else []) ++
  [Ev.write (text ++ ['\n'])] ++
  (if st.spinnerOn then
     [Ev.drawSpinner st.spinnerFrame (promptPfx st.inputBuffer)
        (getVisibleInput cols st.inputBuffer)]
   else if st.promptVisible then
     [Ev.drawPrompt (promptPfx st.inputBuffer)
        (getVisibleInput cols st.inputBuffer)]
   else []) 

/-- The event trace claimed by C7 as stated: a separating newline is
emitted whenever the coordinator is in the Streaming state. -/
def writePermanentClaimed (cols : Nat) (st : CoSt) (text : List Char) : List Ev :=
  (if 0 < st.dynamicLineCount then [Ev.erase st.dynamicLineCount] else []) ++
  (if st.streamingActive = true then [Ev.write ['\n']] else []) ++
  [Ev.write (text ++ ['\n'])] ++
  (if st.spinnerOn then
     [Ev.drawSpinner st.spinnerFrame (promptPfx st.inputBuffer)
        (getVisibleInput cols st.inputBuffer)]
   else if st.promptVisible then
     [Ev.drawPrompt (promptPfx st.inputBuffer)
        (getVisibleInput cols st.inputBuffer)]
   else []) 

/-- C7 counterexample: after `writeStreaming("x")` from the initial
prompt state the coordinator is Streaming with a visible prompt below the
text; `writePermanent("y")` erases that prompt line and writes `y\n`
directly where it was, with NO separating newline, so the trace differs
from the claimed one. -/
theorem write_permanent_counterexample :
    (writePermanent 80 (writeStreaming 80 (redrawPrompt 80 coInit).1 ['x']).1
        ['y']).2 ≠
      writePermanentClaimed 80
        (writeStreaming 80 (redrawPrompt 80 coInit).1 ['x']).1 ['y'] := by
  decide

/-- C7 amended: `writePermanent(text)` erases the dynamic region when it is
nonempty; emits a separating newline only when streaming and nothing was
on the dynamic region; writes `text` plus a newline; and redraws whichever
dynamic content (spinner + prompt, or prompt alone when visible) was
active before the call.  Afterwards the coordinator is no longer
streaming. -/
theorem write_permanent_amended (cols : Nat) (st : CoSt) (text : List Char) :
    (writePermanent cols st text).2 = writePermanentSpec cols st text ∧
    (writePermanent cols st text).1.streamingActive = false := by
  unfold writePermanent writePermanentSpec
  by_cases h1 : 0 < st.dynamicLineCount <;>
    by_cases h2 : st.streamingActive = true <;>
      by_cases h3 : st.spinnerOn = true <;>
        by_cases h4 : st.promptVisible = true <;>
          simp_all [drawSpinnerAndPrompt, redrawPrompt]
  all_goals omega

-- ### C8: the input editor `handleChar` (`cli.ts` 1643–1724)

/-- JS `String.prototype.trim` whitespace (the characters relevant here). -/
def isWsCh (c : Char) : Bool := c == ' ' || c == '\n' || c == '\t' || c == '\r'

/-- `inputBuffer.trim()`. -/
def trimWs (l : List Char) : List Char :=
  ((l.dropWhile isWsCh).reverse.dropWhile isWsCh).reverse

/-- Decimal digits of a natural number, for the queued-message banner. -/
def natLit (n : Nat) : List Char := (toString n).toList

/-- The `queued (n pending)` banner printed when a line is entered while a
turn is being processed (`cli.ts` 1692–1702). -/
def queuedLine (cols n : Nat) (line : List Char) : List Char :=
  let queuePfx := "  ○ queued (".toList ++ natLit n ++ " pending) ".toList
  let maxQ := cols - queuePfx.length
  let disp := if maxQ < line.length then line.take (maxQ - 1) ++ ['…'] else line
  [' ', ' '] ++ YELLOW ++ ['○'] ++ RESET ++ [' '] ++ DIMS ++ "queued (".toList ++
    natLit n ++ " pending)".toList ++ RESET ++ [' '] ++ disp

/-- `shutdown()` (`cli.ts` 1735–1751): idempotent; stops the timers, erases
any dynamic region, hides the prompt and leaves raw mode.  (The final
log line, database close and process exit are outside the model.) -/
def shutdown (st : CoSt) : CoSt × List Ev :=
  if st.running = false then (st, [])
  else
    let st0 := { st with running := false, spinnerOn := false }
    let e1 : List Ev :=
      if 0 < st0.dynamicLineCount then [Ev.erase st0.dynamicLineCount] else []
    ({ st0 with dynamicLineCount := 0, promptVisible := false }, e1)

/-- `handleChar(ch)`: one keystroke of the raw-mode editor. -/
def handleChar (cols : Nat) (st : CoSt) (c : Char) : CoSt × List Ev :=
  let code := c.toNat
  if st.escapeSeq = 1 then
    ({ st with escapeSeq := if c = '[' then 2 else 0 }, [])
  else if st.escapeSeq = 2 then
    ({ st with escapeSeq := 0 }, [])
  else if code = 27 then
    ({ st with escapeSeq := 1 }, [])
  else if code = 3 then
    shutdown st
  else if code = 4 ∧ st.inputBuffer = [] then
    shutdown st
  else if c = '\r' ∨ c = '\n' then
    if st.inputBuffer.getLast? = some '\\' then
      redrawPrompt cols { st with inputBuffer := st.inputBuffer.dropLast ++ ['\n'] }
    else
      let line := trimWs st.inputBuffer
      let st1 := { st with inputBuffer := [] }
      if line = [] then redrawPrompt cols st1
      else
        let st2 := { st1 with messageQueue := st1.messageQueue ++ [line] }
        if st2.processing then
          let p := writePermanent cols st2
            (queuedLine cols st2.messageQueue.length line)
          let q := redrawPrompt cols p.1
          (q.1, p.2 ++ q.2)
        else
          redrawPrompt cols st2
  else if code = 127 ∨ code = 8 then
    if st.inputBuffer ≠ [] then
      redrawPrompt cols { st with inputBuffer := st.inputBuffer.dropLast }
    else (st, [])
  else if code < 32 then
    (st, [])
  else
    redrawPrompt cols { st with inputBuffer := st.inputBuffer ++ [c] }

/-- Feed a sequence of keystrokes, collecting the event batch of each. -/
def handleChars (cols : Nat) (st : CoSt) :
    List Char → CoSt × List (List Ev)
  | [] => (st, [])
  | c :: rest =>
    let p := handleChar cols st c
    let q := handleChars cols p.1 rest
    (q.1, p.2 :: q.2)

/-- The state after the program's initial `redrawPrompt()` call. -/
def initState (cols : Nat) : CoSt := (redrawPrompt cols coInit).1

/-- C8 (backslash continuation): feeding `a`, `\`, Enter, `b`, Enter into
`handleChar` emits exactly one completed line, `"a\nb"` — the trailing
backslash is replaced by an embedded newline instead of submitting — and
the redraw triggered by the first Enter draws the prompt with the `..`
continuation prefix instead of `>`. -/
theorem backslash_continuation :
    (handleChars 80 (initState 80) ['a', '\\', '\r']).1.messageQueue = [] ∧
    (handleChars 80 (initState 80) ['a', '\\', '\r']).2.getLast? =
      some [Ev.erase 1, Ev.drawPrompt contPfx []] ∧
    (handleChars 80 (initState 80) ['a', '\\', '\r', 'b', '\r']).1.messageQueue =
      [['a', '\n', 'b']] := by
  refine ⟨by decide, by decide, by decide⟩
